import Mathlib

/-!
# Verification of the nnxlm decoder-only transformer forward pass

Shallow embedding of `src/nnxlm/phi3.py` and `src/nnxlm/qwen3.py`.

Modelling conventions:
* Tensors are index functions into `ℚ`.  Every operation in the source acts
  elementwise along the batch axis (the 4-d `jnp.matmul` batches over the two
  leading axes), so tensors are modelled per batch element: a hidden-state
  tensor `(B, L, hidden)` becomes `ℕ → ℕ → ℚ` (time, feature), a per-head
  tensor `(B, heads, L, head_dim)` becomes `ℕ → ℕ → ℕ → ℚ` (head, time, dim).
* Floating-point numbers are modelled by exact rationals.  The transcendental
  kernels are abstracted: `e : ℚ → ℚ` stands for the exponential used by
  `jax.nn.softmax` and `jax.nn.silu` (its only property ever needed is
  positivity), and `rsqrt : ℚ → ℚ` stands for `jax.lax.rsqrt` inside
  `nnx.RMSNorm`.  The attention scale `head_dim ** -0.5` is an irrational
  constant and is therefore carried as an abstract rational parameter `scale`.
* The additive attention mask holds `0` where attention is permitted and `-∞`
  where forbidden; `-∞` is modelled exactly as `⊥ : WithBot ℚ`.  Scores are
  finite, so `score + mask` lives in `WithBot ℚ` with `⊥` absorbing, exactly
  like IEEE `x + (-inf) = -inf` for finite `x`.
* `nnx.jit` wrappers are semantic no-ops and are dropped.
-/

/-- `exp` lifted to `WithBot ℚ`: the exponential of `-∞` is `0`, matching IEEE
`exp(-inf) = 0` inside `jax.nn.softmax`. -/
def expW (e : ℚ → ℚ) : WithBot ℚ → ℚ
  | ⊥ => 0
  | (x : ℚ) => e x

/-- The row maximum that `jax.nn.softmax` subtracts for numerical stability:
supremum of the first `n` entries, with `-∞` mapped to `0` (only reached when
the whole row is `-∞`). -/
def rowMax (n : ℕ) (s : ℕ → WithBot ℚ) : ℚ :=
  ((Finset.range n).sup fun j => s j).unbot' 0

/-- `jax.nn.softmax` along a row of `n` scores: subtract the row maximum,
exponentiate, normalise by the row sum. -/
def softmaxRow (e : ℚ → ℚ) (n : ℕ) (s : ℕ → WithBot ℚ) : ℕ → ℚ :=
  fun j =>
    expW e ((s j).map fun x => x - rowMax n s) /
      ∑ k ∈ Finset.range n, expW e ((s k).map fun x => x - rowMax n s)

/-- `nnx.Linear` with `use_bias=False`: `y = x @ kernel` with kernel shape
`(in_features, out_features)`, applied to one row `x`. -/
def linearRow (inF : ℕ) (W : ℕ → ℕ → ℚ) (x : ℕ → ℚ) : ℕ → ℚ :=
  fun o => ∑ i ∈ Finset.range inF, x i * W i o

/-- `nnx.RMSNorm` over a feature row of length `n`: scale-only root-mean-square
normalisation, `y i = x i * rsqrt(mean(x²) + eps) * scale i`. -/
def rmsnormRow (rsqrt : ℚ → ℚ) (n : ℕ) (eps : ℚ) (scale : ℕ → ℚ)
    (v : ℕ → ℚ) : ℕ → ℚ :=
  fun i => v i * rsqrt ((∑ j ∈ Finset.range n, v j * v j) / (n : ℚ) + eps) * scale i

/-- `jax.nn.silu`: `silu(x) = x * sigmoid(x) = x * (1 / (1 + exp(-x)))`,
with the exponential abstracted as `e`. -/
def silu (e : ℚ → ℚ) (x : ℚ) : ℚ :=
  x * (1 / (1 + e (-x)))

/-- `jnp.repeat(k, repeats=r, axis=1)` on a per-head tensor (head, time, dim):
output head `h` reads input head `h / r`. -/
def repeatKV (r : ℕ) (k : ℕ → ℕ → ℕ → ℚ) : ℕ → ℕ → ℕ → ℚ :=
  fun h t d => k (h / r) t d

/-- Modelled from the spec: `apply_rope` lives in `src/nnxlm/utils.py`, which is
not present under `src/`.  Per §4.1 of the spec, only the leading `rotDims`
dimensions rotate; the vector's first half pairs with its second half:
`out₁ = x₁·cos − x₂·sin`, `out₂ = x₂·cos + x₁·sin`, the angle tables being
indexed by absolute position and rotary dimension; dimensions beyond `rotDims`
pass through unchanged. -/
def ropeRow (cosT sinT : ℕ → ℕ → ℚ) (rotDims : ℕ) (pos : ℕ) (v : ℕ → ℚ) : ℕ → ℚ :=
  fun i =>
    if i < rotDims / 2 then
      v i * cosT pos i - v (i + rotDims / 2) * sinT pos i
    else if i < 2 * (rotDims / 2) then
      v i * cosT pos (i - rotDims / 2) + v (i - rotDims / 2) * sinT pos (i - rotDims / 2)
    else v i

/-- Modelled from the spec: the per-layer KV cache entry of `src/nnxlm/utils.py`
(not present under `src/`).  Per §3/§4.2 it accumulates key and value tensors of
shape (num_kv_heads, seen_length, head_dim) per batch element; `len` is the
number of positions seen so far. -/
structure KVEntry where
  len : ℕ
  keys : ℕ → ℕ → ℕ → ℚ
  vals : ℕ → ℕ → ℕ → ℚ

/-- Modelled from the spec: `cache(k, v)` (§4.2 `update`) appends the `L` newly
processed positions after the stored history, earliest position first, and
returns the full accumulated tensors. -/
def KVEntry.update (c : KVEntry) (L : ℕ) (k v : ℕ → ℕ → ℕ → ℚ) : KVEntry :=
  { len := c.len + L
    keys := fun h s d => if s < c.len then c.keys h s d else k h (s - c.len) d
    vals := fun h s d => if s < c.len then c.vals h s d else v h (s - c.len) d }

/-- The empty cache entry at session start. -/
def KVEntry.empty : KVEntry :=
  { len := 0, keys := fun _ _ _ => 0, vals := fun _ _ _ => 0 }

/-! ## Shared attention tail (lines 33-45 of phi3.py / 35-46 of qwen3.py) -/

/-- Lines 33-34 / 35-36: `if cache is not None: k, v = cache(k, v)`.
Returns the key length together with the key/value tensors actually attended
over: the new tensors themselves without a cache, the full accumulated history
after appending with one. -/
def kvSeen (L : ℕ) (cache : Option KVEntry) (kNew vNew : ℕ → ℕ → ℕ → ℚ) :
    ℕ × (ℕ → ℕ → ℕ → ℚ) × (ℕ → ℕ → ℕ → ℚ) :=
  match cache with
  | none => (L, kNew, vNew)
  | some c => ((c.update L kNew vNew).len, (c.update L kNew vNew).keys,
      (c.update L kNew vNew).vals)

/-- Lines 39-40 / 40-41: `w = q @ k.swapaxes(-1,-2) * scale; w = w + mask`.
The dot product over `head_dim` is finite; adding a `⊥` mask entry gives `⊥`,
like adding `-inf` to a finite float. -/
def maskedScores (scale : ℚ) (headDim : ℕ) (mask : ℕ → ℕ → WithBot ℚ)
    (q k : ℕ → ℕ → ℕ → ℚ) : ℕ → ℕ → ℕ → WithBot ℚ :=
  fun h t s =>
    (((∑ d ∈ Finset.range headDim, q h t d * k h s d) * scale : ℚ) : WithBot ℚ) + mask t s

/-- Line 41 / 42: `w = jax.nn.softmax(w, axis=-1)` over the `S` key positions. -/
def attnProbs (e : ℚ → ℚ) (scale : ℚ) (headDim S : ℕ) (mask : ℕ → ℕ → WithBot ℚ)
    (q k : ℕ → ℕ → ℕ → ℚ) : ℕ → ℕ → ℕ → ℚ :=
  fun h t => softmaxRow e S (maskedScores scale headDim mask q k h t)

/-- Line 42 / 43: `w = jnp.matmul(w, v)`: probability-weighted sum of values. -/
def attnVals (S : ℕ) (probs v : ℕ → ℕ → ℕ → ℚ) : ℕ → ℕ → ℕ → ℚ :=
  fun h t d => ∑ s ∈ Finset.range S, probs h t s * v h s d

/-- Lines 43-44 / 44-45: `w.transpose((0,2,1,3)).reshape(B, L, -1)`: heads are
re-interleaved so flat feature `f` reads head `f / head_dim`, dim `f % head_dim`. -/
def mergeHeads (headDim : ℕ) (o : ℕ → ℕ → ℕ → ℚ) : ℕ → ℕ → ℚ :=
  fun t f => o (f / headDim) t (f % headDim)

/-! ## Qwen3 attention (src/nnxlm/qwen3.py, class Attention) -/

/-- Qwen3 hyperparameters.  `scale` stands for `head_dim ** -0.5` (line 11),
an irrational constant kept abstract over `ℚ`. -/
structure Qwen3Cfg where
  hiddenSize : ℕ
  numHeads : ℕ
  numKvHeads : ℕ
  headDim : ℕ
  intermediateSize : ℕ
  vocabSize : ℕ
  eps : ℚ
  scale : ℚ

/-- Line 12 of qwen3.py: `self.n_repeat = num_attention_heads // num_kv_heads`. -/
def qwen3NRepeat (c : Qwen3Cfg) : ℕ := c.numHeads / c.numKvHeads

/-- Weights of one qwen3 Attention module: the four projections (lines 13-16)
and the two per-head RMSNorm scales (lines 17-18). -/
structure Qwen3AttnW where
  wq : ℕ → ℕ → ℚ
  wk : ℕ → ℕ → ℚ
  wv : ℕ → ℕ → ℚ
  wo : ℕ → ℕ → ℚ
  qScale : ℕ → ℚ
  kScale : ℕ → ℚ

/-- One query row of qwen3 at absolute position `pos`: project (line 23),
reshape/transpose to per-head rows (lines 26, 29), per-head RMSNorm (line 32),
rotary encode (line 34, full `head_dim` rotated). -/
def qwen3QRow (rsqrt : ℚ → ℚ) (c : Qwen3Cfg) (w : Qwen3AttnW)
    (cosT sinT : ℕ → ℕ → ℚ) (pos : ℕ) (xRow : ℕ → ℚ) (h : ℕ) : ℕ → ℚ :=
  ropeRow cosT sinT c.headDim pos
    (rmsnormRow rsqrt c.headDim c.eps w.qScale
      (fun d => linearRow c.hiddenSize w.wq xRow (h * c.headDim + d)))

/-- One key row of qwen3: lines 24, 27, 30, 33, 34. -/
def qwen3KRow (rsqrt : ℚ → ℚ) (c : Qwen3Cfg) (w : Qwen3AttnW)
    (cosT sinT : ℕ → ℕ → ℚ) (pos : ℕ) (xRow : ℕ → ℚ) (h : ℕ) : ℕ → ℚ :=
  ropeRow cosT sinT c.headDim pos
    (rmsnormRow rsqrt c.headDim c.eps w.kScale
      (fun d => linearRow c.hiddenSize w.wk xRow (h * c.headDim + d)))

/-- One value row of qwen3: lines 25, 28, 31 (no norm, no rope). -/
def qwen3VRow (c : Qwen3Cfg) (w : Qwen3AttnW) (xRow : ℕ → ℚ) (h : ℕ) : ℕ → ℚ :=
  fun d => linearRow c.hiddenSize w.wv xRow (h * c.headDim + d)

/-- Query tensor of a qwen3 call whose first token sits at absolute position
`off`: local time `t` is rotated at position `off + t`. -/
def qwen3QT (rsqrt : ℚ → ℚ) (c : Qwen3Cfg) (w : Qwen3AttnW)
    (cosT sinT : ℕ → ℕ → ℚ) (off : ℕ) (x : ℕ → ℕ → ℚ) : ℕ → ℕ → ℕ → ℚ :=
  fun h t => qwen3QRow rsqrt c w cosT sinT (off + t) (x t) h

/-- Key tensor of a qwen3 call (before cache / repetition). -/
def qwen3KT (rsqrt : ℚ → ℚ) (c : Qwen3Cfg) (w : Qwen3AttnW)
    (cosT sinT : ℕ → ℕ → ℚ) (off : ℕ) (x : ℕ → ℕ → ℚ) : ℕ → ℕ → ℕ → ℚ :=
  fun h t => qwen3KRow rsqrt c w cosT sinT (off + t) (x t) h

/-- Value tensor of a qwen3 call. -/
def qwen3VT (c : Qwen3Cfg) (w : Qwen3AttnW) (x : ℕ → ℕ → ℚ) : ℕ → ℕ → ℕ → ℚ :=
  fun h t => qwen3VRow c w (x t) h

/-- Number of key positions attended over by a qwen3 call. -/
def qwen3S (rsqrt : ℚ → ℚ) (c : Qwen3Cfg) (w : Qwen3AttnW)
    (cosT sinT : ℕ → ℕ → ℚ) (off L : ℕ) (x : ℕ → ℕ → ℚ)
    (cache : Option KVEntry) : ℕ :=
  (kvSeen L cache (qwen3KT rsqrt c w cosT sinT off x) (qwen3VT c w x)).1

/-- Key history attended over by a qwen3 call (lines 35-36). -/
def qwen3KAll (rsqrt : ℚ → ℚ) (c : Qwen3Cfg) (w : Qwen3AttnW)
    (cosT sinT : ℕ → ℕ → ℚ) (off L : ℕ) (x : ℕ → ℕ → ℚ)
    (cache : Option KVEntry) : ℕ → ℕ → ℕ → ℚ :=
  (kvSeen L cache (qwen3KT rsqrt c w cosT sinT off x) (qwen3VT c w x)).2.1

/-- Value history attended over by a qwen3 call (lines 35-36). -/
def qwen3VAll (rsqrt : ℚ → ℚ) (c : Qwen3Cfg) (w : Qwen3AttnW)
    (cosT sinT : ℕ → ℕ → ℚ) (off L : ℕ) (x : ℕ → ℕ → ℚ)
    (cache : Option KVEntry) : ℕ → ℕ → ℕ → ℚ :=
  (kvSeen L cache (qwen3KT rsqrt c w cosT sinT off x) (qwen3VT c w x)).2.2

/-- Lines 37-38 of qwen3.py: `if self.n_repeat > 1: k = jnp.repeat(k, n_repeat, axis=1)`. -/
def qwen3KRep (rsqrt : ℚ → ℚ) (c : Qwen3Cfg) (w : Qwen3AttnW)
    (cosT sinT : ℕ → ℕ → ℚ) (off L : ℕ) (x : ℕ → ℕ → ℚ)
    (cache : Option KVEntry) : ℕ → ℕ → ℕ → ℚ :=
  if 1 < qwen3NRepeat c then
    repeatKV (qwen3NRepeat c) (qwen3KAll rsqrt c w cosT sinT off L x cache)
  else qwen3KAll rsqrt c w cosT sinT off L x cache

/-- Lines 37, 39 of qwen3.py: the value tensor after the guarded repetition. -/
def qwen3VRep (rsqrt : ℚ → ℚ) (c : Qwen3Cfg) (w : Qwen3AttnW)
    (cosT sinT : ℕ → ℕ → ℚ) (off L : ℕ) (x : ℕ → ℕ → ℚ)
    (cache : Option KVEntry) : ℕ → ℕ → ℕ → ℚ :=
  if 1 < qwen3NRepeat c then
    repeatKV (qwen3NRepeat c) (qwen3VAll rsqrt c w cosT sinT off L x cache)
  else qwen3VAll rsqrt c w cosT sinT off L x cache

/-- Post-softmax attention probabilities of a qwen3 call (line 42). -/
def qwen3Probs (e rsqrt : ℚ → ℚ) (c : Qwen3Cfg) (w : Qwen3AttnW)
    (cosT sinT : ℕ → ℕ → ℚ) (off L : ℕ) (x : ℕ → ℕ → ℚ)
    (mask : ℕ → ℕ → WithBot ℚ) (cache : Option KVEntry) : ℕ → ℕ → ℕ → ℚ :=
  attnProbs e c.scale c.headDim (qwen3S rsqrt c w cosT sinT off L x cache) mask
    (qwen3QT rsqrt c w cosT sinT off x)
    (qwen3KRep rsqrt c w cosT sinT off L x cache)

/-- `Attention.__call__` of qwen3.py (lines 21-46), output tensor. -/
def qwen3Attention (e rsqrt : ℚ → ℚ) (c : Qwen3Cfg) (w : Qwen3AttnW)
    (cosT sinT : ℕ → ℕ → ℚ) (off L : ℕ) (x : ℕ → ℕ → ℚ)
    (mask : ℕ → ℕ → WithBot ℚ) (cache : Option KVEntry) : ℕ → ℕ → ℚ :=
  fun t f =>
    linearRow (c.numHeads * c.headDim) w.wo
      (mergeHeads c.headDim
        (attnVals (qwen3S rsqrt c w cosT sinT off L x cache)
          (qwen3Probs e rsqrt c w cosT sinT off L x mask cache)
          (qwen3VRep rsqrt c w cosT sinT off L x cache)) t) f

/-- The cache as mutated by a qwen3 attention call (`cache(k, v)`, line 36):
the new keys/values are appended in place. -/
def qwen3CacheAfter (rsqrt : ℚ → ℚ) (c : Qwen3Cfg) (w : Qwen3AttnW)
    (cosT sinT : ℕ → ℕ → ℚ) (off L : ℕ) (x : ℕ → ℕ → ℚ)
    (cache : Option KVEntry) : Option KVEntry :=
  cache.map fun cc => cc.update L (qwen3KT rsqrt c w cosT sinT off x) (qwen3VT c w x)

/-! ## Phi3 attention (src/nnxlm/phi3.py, class Attention) -/

/-- Phi3 hyperparameters.  `rotDims` is `int(head_dim * config.partial_rotary_factor)`
precomputed (line 15 of phi3.py); `scale` stands for `head_dim ** -0.5` (line 11). -/
structure Phi3Cfg where
  hiddenSize : ℕ
  numHeads : ℕ
  numKvHeads : ℕ
  rotDims : ℕ
  intermediateSize : ℕ
  vocabSize : ℕ
  eps : ℚ
  scale : ℚ

/-- Line 10 of phi3.py: `head_dim = config.hidden_size // n_heads`
(floor division — truncates when the sizes do not divide evenly). -/
def phi3HeadDim (c : Phi3Cfg) : ℕ := c.hiddenSize / c.numHeads

/-- Line 12 of phi3.py: `op_size = n_heads * head_dim + 2 * (n_kv_heads * head_dim)`;
the query block of the fused output ends at `n_heads * head_dim`. -/
def phi3QPos (c : Phi3Cfg) : ℕ := c.numHeads * phi3HeadDim c

/-- Line 22 of phi3.py: `kv_pos = query_pos + n_kv_heads * head_dim`. -/
def phi3KVPos (c : Phi3Cfg) : ℕ := phi3QPos c + c.numKvHeads * phi3HeadDim c

/-- Weights of one phi3 Attention module: the fused qkv projection (line 13)
and the output projection (line 14). -/
structure Phi3AttnW where
  wqkv : ℕ → ℕ → ℚ
  wo : ℕ → ℕ → ℚ

/-- One query row of phi3 at absolute position `pos`: fused projection
(line 20), slice `[:query_pos]` (line 23), reshape/transpose (lines 26, 29),
partial rotary encoding (line 32). -/
def phi3QRow (c : Phi3Cfg) (w : Phi3AttnW) (cosT sinT : ℕ → ℕ → ℚ)
    (pos : ℕ) (xRow : ℕ → ℚ) (h : ℕ) : ℕ → ℚ :=
  ropeRow cosT sinT c.rotDims pos
    (fun d => linearRow c.hiddenSize w.wqkv xRow (h * phi3HeadDim c + d))

/-- One key row of phi3: slice `[query_pos:kv_pos]` (line 24), reshape/transpose
(lines 27, 30), partial rotary encoding (line 32). -/
def phi3KRow (c : Phi3Cfg) (w : Phi3AttnW) (cosT sinT : ℕ → ℕ → ℚ)
    (pos : ℕ) (xRow : ℕ → ℚ) (h : ℕ) : ℕ → ℚ :=
  ropeRow cosT sinT c.rotDims pos
    (fun d => linearRow c.hiddenSize w.wqkv xRow (phi3QPos c + (h * phi3HeadDim c + d)))

/-- One value row of phi3: slice `[kv_pos:]` (line 25), reshape/transpose
(lines 28, 31); no rope. -/
def phi3VRow (c : Phi3Cfg) (w : Phi3AttnW) (xRow : ℕ → ℚ) (h : ℕ) : ℕ → ℚ :=
  fun d => linearRow c.hiddenSize w.wqkv xRow (phi3KVPos c + (h * phi3HeadDim c + d))

/-- Query tensor of a phi3 call whose first token sits at absolute position `off`. -/
def phi3QT (c : Phi3Cfg) (w : Phi3AttnW) (cosT sinT : ℕ → ℕ → ℚ)
    (off : ℕ) (x : ℕ → ℕ → ℚ) : ℕ → ℕ → ℕ → ℚ :=
  fun h t => phi3QRow c w cosT sinT (off + t) (x t) h

/-- Key tensor of a phi3 call (before cache / repetition). -/
def phi3KT (c : Phi3Cfg) (w : Phi3AttnW) (cosT sinT : ℕ → ℕ → ℚ)
    (off : ℕ) (x : ℕ → ℕ → ℚ) : ℕ → ℕ → ℕ → ℚ :=
  fun h t => phi3KRow c w cosT sinT (off + t) (x t) h

/-- Value tensor of a phi3 call. -/
def phi3VT (c : Phi3Cfg) (w : Phi3AttnW) (x : ℕ → ℕ → ℚ) : ℕ → ℕ → ℕ → ℚ :=
  fun h t => phi3VRow c w (x t) h

/-- Number of key positions attended over by a phi3 call. -/
def phi3S (c : Phi3Cfg) (w : Phi3AttnW) (cosT sinT : ℕ → ℕ → ℚ)
    (off L : ℕ) (x : ℕ → ℕ → ℚ) (cache : Option KVEntry) : ℕ :=
  (kvSeen L cache (phi3KT c w cosT sinT off x) (phi3VT c w x)).1

/-- Key history attended over by a phi3 call (lines 33-34). -/
def phi3KAll (c : Phi3Cfg) (w : Phi3AttnW) (cosT sinT : ℕ → ℕ → ℚ)
    (off L : ℕ) (x : ℕ → ℕ → ℚ) (cache : Option KVEntry) : ℕ → ℕ → ℕ → ℚ :=
  (kvSeen L cache (phi3KT c w cosT sinT off x) (phi3VT c w x)).2.1

/-- Value history attended over by a phi3 call (lines 33-34). -/
def phi3VAll (c : Phi3Cfg) (w : Phi3AttnW) (cosT sinT : ℕ → ℕ → ℚ)
    (off L : ℕ) (x : ℕ → ℕ → ℚ) (cache : Option KVEntry) : ℕ → ℕ → ℕ → ℚ :=
  (kvSeen L cache (phi3KT c w cosT sinT off x) (phi3VT c w x)).2.2

/-- Lines 35-37 of phi3.py: `if self.n_heads > self.n_kv_heads:
n_repeat = n_heads // n_kv_heads; k = k.repeat(n_repeat, axis=1)`. -/
def phi3KRep (c : Phi3Cfg) (w : Phi3AttnW) (cosT sinT : ℕ → ℕ → ℚ)
    (off L : ℕ) (x : ℕ → ℕ → ℚ) (cache : Option KVEntry) : ℕ → ℕ → ℕ → ℚ :=
  if c.numKvHeads < c.numHeads then
    repeatKV (c.numHeads / c.numKvHeads) (phi3KAll c w cosT sinT off L x cache)
  else phi3KAll c w cosT sinT off L x cache

/-- Lines 35, 36, 38 of phi3.py: the value tensor after the guarded repetition. -/
def phi3VRep (c : Phi3Cfg) (w : Phi3AttnW) (cosT sinT : ℕ → ℕ → ℚ)
    (off L : ℕ) (x : ℕ → ℕ → ℚ) (cache : Option KVEntry) : ℕ → ℕ → ℕ → ℚ :=
  if c.numKvHeads < c.numHeads then
    repeatKV (c.numHeads / c.numKvHeads) (phi3VAll c w cosT sinT off L x cache)
  else phi3VAll c w cosT sinT off L x cache

/-- Post-softmax attention probabilities of a phi3 call (line 41). -/
def phi3Probs (e : ℚ → ℚ) (c : Phi3Cfg) (w : Phi3AttnW) (cosT sinT : ℕ → ℕ → ℚ)
    (off L : ℕ) (x : ℕ → ℕ → ℚ) (mask : ℕ → ℕ → WithBot ℚ)
    (cache : Option KVEntry) : ℕ → ℕ → ℕ → ℚ :=
  attnProbs e c.scale (phi3HeadDim c) (phi3S c w cosT sinT off L x cache) mask
    (phi3QT c w cosT sinT off x)
    (phi3KRep c w cosT sinT off L x cache)

/-- `Attention.__call__` of phi3.py (lines 18-45), output tensor. -/
def phi3Attention (e : ℚ → ℚ) (c : Phi3Cfg) (w : Phi3AttnW)
    (cosT sinT : ℕ → ℕ → ℚ) (off L : ℕ) (x : ℕ → ℕ → ℚ)
    (mask : ℕ → ℕ → WithBot ℚ) (cache : Option KVEntry) : ℕ → ℕ → ℚ :=
  fun t f =>
    linearRow (c.numHeads * phi3HeadDim c) w.wo
      (mergeHeads (phi3HeadDim c)
        (attnVals (phi3S c w cosT sinT off L x cache)
          (phi3Probs e c w cosT sinT off L x mask cache)
          (phi3VRep c w cosT sinT off L x cache)) t) f

/-- The cache as mutated by a phi3 attention call (`cache(k, v)`, line 34). -/
def phi3CacheAfter (c : Phi3Cfg) (w : Phi3AttnW) (cosT sinT : ℕ → ℕ → ℚ)
    (off L : ℕ) (x : ℕ → ℕ → ℚ) (cache : Option KVEntry) : Option KVEntry :=
  cache.map fun cc => cc.update L (phi3KT c w cosT sinT off x) (phi3VT c w x)

/-! ## Feed-forward networks -/

/-- `MLP.__call__` of qwen3.py (lines 55-58): separate gate/up projections,
`down_proj(silu(gate) * up)`. -/
def qwen3MLP (e : ℚ → ℚ) (hidden inter : ℕ) (wg wu wd : ℕ → ℕ → ℚ)
    (xRow : ℕ → ℚ) : ℕ → ℚ :=
  linearRow inter wd
    (fun i => silu e (linearRow hidden wg xRow i) * linearRow hidden wu xRow i)

/-- `MLP.__call__` of phi3.py (lines 53-56): fused `gate_up_proj` of width
`2 * intermediate_size`, `jnp.split(x, 2, axis=-1)` into gate (features
`[0, inter)`) and up (features `[inter, 2*inter)`), then `down_proj(silu(gate) * up)`. -/
def phi3MLP (e : ℚ → ℚ) (hidden inter : ℕ) (wgu wd : ℕ → ℕ → ℚ)
    (xRow : ℕ → ℚ) : ℕ → ℚ :=
  linearRow inter wd
    (fun i => silu e (linearRow hidden wgu xRow i) * linearRow hidden wgu xRow (inter + i))

/-! ## Transformer blocks -/

/-- Weights of one qwen3 TransformerBlock (lines 61-65): attention, MLP
projections, and the two RMSNorm scales. -/
structure Qwen3BlockW where
  attn : Qwen3AttnW
  wg : ℕ → ℕ → ℚ
  wu : ℕ → ℕ → ℚ
  wd : ℕ → ℕ → ℚ
  inScale : ℕ → ℚ
  postScale : ℕ → ℚ

/-- `self.input_layernorm(x)` (line 69 of qwen3.py). -/
def qwen3BlockAttnIn (rsqrt : ℚ → ℚ) (c : Qwen3Cfg) (b : Qwen3BlockW)
    (x : ℕ → ℕ → ℚ) : ℕ → ℕ → ℚ :=
  fun t => rmsnormRow rsqrt c.hiddenSize c.eps b.inScale (x t)

/-- `x = x + h` after attention (lines 69-70 of qwen3.py). -/
def qwen3BlockMid (e rsqrt : ℚ → ℚ) (c : Qwen3Cfg) (b : Qwen3BlockW)
    (cosT sinT : ℕ → ℕ → ℚ) (off L : ℕ) (x : ℕ → ℕ → ℚ)
    (mask : ℕ → ℕ → WithBot ℚ) (cache : Option KVEntry) : ℕ → ℕ → ℚ :=
  fun t f => x t f +
    qwen3Attention e rsqrt c b.attn cosT sinT off L
      (qwen3BlockAttnIn rsqrt c b x) mask cache t f

/-- `TransformerBlock.__call__` of qwen3.py (lines 68-71). -/
def qwen3Block (e rsqrt : ℚ → ℚ) (c : Qwen3Cfg) (b : Qwen3BlockW)
    (cosT sinT : ℕ → ℕ → ℚ) (off L : ℕ) (x : ℕ → ℕ → ℚ)
    (mask : ℕ → ℕ → WithBot ℚ) (cache : Option KVEntry) : ℕ → ℕ → ℚ :=
  fun t f =>
    qwen3BlockMid e rsqrt c b cosT sinT off L x mask cache t f +
      qwen3MLP e c.hiddenSize c.intermediateSize b.wg b.wu b.wd
        (rmsnormRow rsqrt c.hiddenSize c.eps b.postScale
          (qwen3BlockMid e rsqrt c b cosT sinT off L x mask cache t)) f

/-- Cache state after a qwen3 block ran (the block's attention mutated it). -/
def qwen3BlockCacheAfter (rsqrt : ℚ → ℚ) (c : Qwen3Cfg) (b : Qwen3BlockW)
    (cosT sinT : ℕ → ℕ → ℚ) (off L : ℕ) (x : ℕ → ℕ → ℚ)
    (cache : Option KVEntry) : Option KVEntry :=
  qwen3CacheAfter rsqrt c b.attn cosT sinT off L (qwen3BlockAttnIn rsqrt c b x) cache

/-- Weights of one phi3 TransformerBlock (lines 59-63). -/
structure Phi3BlockW where
  attn : Phi3AttnW
  wgu : ℕ → ℕ → ℚ
  wd : ℕ → ℕ → ℚ
  inScale : ℕ → ℚ
  postScale : ℕ → ℚ

/-- `self.input_layernorm(x)` (line 68 of phi3.py). -/
def phi3BlockAttnIn (rsqrt : ℚ → ℚ) (c : Phi3Cfg) (b : Phi3BlockW)
    (x : ℕ → ℕ → ℚ) : ℕ → ℕ → ℚ :=
  fun t => rmsnormRow rsqrt c.hiddenSize c.eps b.inScale (x t)

/-- `x = x + h` after attention (lines 67-73 of phi3.py). -/
def phi3BlockMid (e rsqrt : ℚ → ℚ) (c : Phi3Cfg) (b : Phi3BlockW)
    (cosT sinT : ℕ → ℕ → ℚ) (off L : ℕ) (x : ℕ → ℕ → ℚ)
    (mask : ℕ → ℕ → WithBot ℚ) (cache : Option KVEntry) : ℕ → ℕ → ℚ :=
  fun t f => x t f +
    phi3Attention e c b.attn cosT sinT off L
      (phi3BlockAttnIn rsqrt c b x) mask cache t f

/-- `TransformerBlock.__call__` of phi3.py (lines 66-74). -/
def phi3Block (e rsqrt : ℚ → ℚ) (c : Phi3Cfg) (b : Phi3BlockW)
    (cosT sinT : ℕ → ℕ → ℚ) (off L : ℕ) (x : ℕ → ℕ → ℚ)
    (mask : ℕ → ℕ → WithBot ℚ) (cache : Option KVEntry) : ℕ → ℕ → ℚ :=
  fun t f =>
    phi3BlockMid e rsqrt c b cosT sinT off L x mask cache t f +
      phi3MLP e c.hiddenSize c.intermediateSize b.wgu b.wd
        (rmsnormRow rsqrt c.hiddenSize c.eps b.postScale
          (phi3BlockMid e rsqrt c b cosT sinT off L x mask cache t)) f

/-- Cache state after a phi3 block ran. -/
def phi3BlockCacheAfter (rsqrt : ℚ → ℚ) (c : Phi3Cfg) (b : Phi3BlockW)
    (cosT sinT : ℕ → ℕ → ℚ) (off L : ℕ) (x : ℕ → ℕ → ℚ)
    (cache : Option KVEntry) : Option KVEntry :=
  phi3CacheAfter c b.attn cosT sinT off L (phi3BlockAttnIn rsqrt c b x) cache

/-! ## Model stacks and causal-LM heads -/

/-- `nnx.Embed.__call__` is `jnp.take(embedding, inputs, axis=0)`, whose default
out-of-bounds mode in JAX is `clip`: an out-of-range token id is clamped to the
last row instead of raising. -/
def embedLookup (vocab : ℕ) (emb : ℕ → ℕ → ℚ) (id : ℕ) : ℕ → ℚ :=
  emb (min id (vocab - 1))

/-- Weights of a qwen3 model stack (lines 74-77). -/
structure Qwen3ModelW where
  blocks : List Qwen3BlockW
  embed : ℕ → ℕ → ℚ
  normScale : ℕ → ℚ

/-- The layer loop of `Qwen3Model.__call__` (lines 82-83): layer `i` consumes
`cache[i]`.  Walking past the end of the cache list is Python's `IndexError`;
entries of layers already executed keep their in-place mutation. -/
def qwen3RunLayers (e rsqrt : ℚ → ℚ) (c : Qwen3Cfg) (cosT sinT : ℕ → ℕ → ℚ)
    (off L : ℕ) (mask : ℕ → ℕ → WithBot ℚ) :
    List Qwen3BlockW → (ℕ → ℕ → ℚ) → List (Option KVEntry) →
      Except String (ℕ → ℕ → ℚ) × List (Option KVEntry)
  | [], x, cs => (.ok x, cs)
  | _ :: _, _, [] => (.error "IndexError: list index out of range", [])
  | b :: bs, x, cc :: cs =>
    let res := qwen3RunLayers e rsqrt c cosT sinT off L mask bs
      (qwen3Block e rsqrt c b cosT sinT off L x mask cc) cs
    (res.1, qwen3BlockCacheAfter rsqrt c b cosT sinT off L x cc :: res.2)

/-- `Qwen3Model.__call__` (lines 80-84): embed, run the layers, final RMSNorm. -/
def qwen3Model (e rsqrt : ℚ → ℚ) (c : Qwen3Cfg) (mw : Qwen3ModelW)
    (cosT sinT : ℕ → ℕ → ℚ) (off L : ℕ) (ids : ℕ → ℕ)
    (mask : ℕ → ℕ → WithBot ℚ) (caches : List (Option KVEntry)) :
    Except String (ℕ → ℕ → ℚ) × List (Option KVEntry) :=
  ((qwen3RunLayers e rsqrt c cosT sinT off L mask mw.blocks
      (fun t => embedLookup c.vocabSize mw.embed (ids t)) caches).1.map
    (fun x t => rmsnormRow rsqrt c.hiddenSize c.eps mw.normScale (x t)),
   (qwen3RunLayers e rsqrt c cosT sinT off L mask mw.blocks
      (fun t => embedLookup c.vocabSize mw.embed (ids t)) caches).2)

/-- `nnx.Embed.attend(x)`: `x @ embedding.T`, mapping hidden states to
vocabulary scores. -/
def embedAttend (hidden : ℕ) (emb : ℕ → ℕ → ℚ) (xRow : ℕ → ℚ) : ℕ → ℚ :=
  fun v => ∑ d ∈ Finset.range hidden, xRow d * emb v d

/-- Weights of `Qwen3ForCausalLM` (lines 87-91): `tie` is
`config.tie_word_embeddings`, fixed at construction; `lmHead` exists only in
the untied branch. -/
structure Qwen3LMW where
  model : Qwen3ModelW
  tie : Bool
  lmHead : ℕ → ℕ → ℚ

/-- `Qwen3ForCausalLM.__call__` (lines 94-100): run the stack, then either
`embed_tokens.attend(x)` (tied) or `lm_head(x)` (untied). -/
def qwen3CausalLM (e rsqrt : ℚ → ℚ) (c : Qwen3Cfg) (lw : Qwen3LMW)
    (cosT sinT : ℕ → ℕ → ℚ) (off L : ℕ) (ids : ℕ → ℕ)
    (mask : ℕ → ℕ → WithBot ℚ) (caches : List (Option KVEntry)) :
    Except String (ℕ → ℕ → ℚ) × List (Option KVEntry) :=
  ((qwen3Model e rsqrt c lw.model cosT sinT off L ids mask caches).1.map
    (fun x t =>
      if lw.tie then embedAttend c.hiddenSize lw.model.embed (x t)
      else linearRow c.hiddenSize lw.lmHead (x t)),
   (qwen3Model e rsqrt c lw.model cosT sinT off L ids mask caches).2)

/-- Weights of a phi3 model stack (lines 77-80). -/
structure Phi3ModelW where
  blocks : List Phi3BlockW
  embed : ℕ → ℕ → ℚ
  normScale : ℕ → ℚ

/-- The layer loop of `Phi3Model.__call__` (lines 85-86). -/
def phi3RunLayers (e rsqrt : ℚ → ℚ) (c : Phi3Cfg) (cosT sinT : ℕ → ℕ → ℚ)
    (off L : ℕ) (mask : ℕ → ℕ → WithBot ℚ) :
    List Phi3BlockW → (ℕ → ℕ → ℚ) → List (Option KVEntry) →
      Except String (ℕ → ℕ → ℚ) × List (Option KVEntry)
  | [], x, cs => (.ok x, cs)
  | _ :: _, _, [] => (.error "IndexError: list index out of range", [])
  | b :: bs, x, cc :: cs =>
    let res := phi3RunLayers e rsqrt c cosT sinT off L mask bs
      (phi3Block e rsqrt c b cosT sinT off L x mask cc) cs
    (res.1, phi3BlockCacheAfter rsqrt c b cosT sinT off L x cc :: res.2)

/-- `Phi3Model.__call__` (lines 83-87). -/
def phi3Model (e rsqrt : ℚ → ℚ) (c : Phi3Cfg) (mw : Phi3ModelW)
    (cosT sinT : ℕ → ℕ → ℚ) (off L : ℕ) (ids : ℕ → ℕ)
    (mask : ℕ → ℕ → WithBot ℚ) (caches : List (Option KVEntry)) :
    Except String (ℕ → ℕ → ℚ) × List (Option KVEntry) :=
  ((phi3RunLayers e rsqrt c cosT sinT off L mask mw.blocks
      (fun t => embedLookup c.vocabSize mw.embed (ids t)) caches).1.map
    (fun x t => rmsnormRow rsqrt c.hiddenSize c.eps mw.normScale (x t)),
   (phi3RunLayers e rsqrt c cosT sinT off L mask mw.blocks
      (fun t => embedLookup c.vocabSize mw.embed (ids t)) caches).2)

/-- Weights of `Phi3ForCausalLM` (lines 90-94). -/
structure Phi3LMW where
  model : Phi3ModelW
  tie : Bool
  lmHead : ℕ → ℕ → ℚ

/-- `Phi3ForCausalLM.__call__` (lines 97-103). -/
def phi3CausalLM (e rsqrt : ℚ → ℚ) (c : Phi3Cfg) (lw : Phi3LMW)
    (cosT sinT : ℕ → ℕ → ℚ) (off L : ℕ) (ids : ℕ → ℕ)
    (mask : ℕ → ℕ → WithBot ℚ) (caches : List (Option KVEntry)) :
    Except String (ℕ → ℕ → ℚ) × List (Option KVEntry) :=
  ((phi3Model e rsqrt c lw.model cosT sinT off L ids mask caches).1.map
    (fun x t =>
      if lw.tie then embedAttend c.hiddenSize lw.model.embed (x t)
      else linearRow c.hiddenSize lw.lmHead (x t)),
   (phi3Model e rsqrt c lw.model cosT sinT off L ids mask caches).2)

/-! ## Construction-time derived quantities (error-handling claims) -/

/-- `Attention.__init__` of phi3.py, lines 10-11: `head_dim = hidden_size //
n_heads`, then `scale = head_dim ** -0.5`.  Python floor division raises
`ZeroDivisionError` on a zero divisor; a `head_dim` floored to `0` (heads
exceeding the hidden size) raises `ZeroDivisionError` at the negative power of
line 11; otherwise construction succeeds with the floored `head_dim` — there
is no divisibility check anywhere. -/
def phi3InitHeadDim (hiddenSize numHeads : ℕ) : Except String ℕ :=
  if numHeads = 0 then
    .error "ZeroDivisionError: integer division or modulo by zero"
  else if hiddenSize / numHeads = 0 then
    .error "ZeroDivisionError: 0.0 cannot be raised to a negative power"
  else .ok (hiddenSize / numHeads)

/-- `Attention.__init__` of qwen3.py, lines 10-12: `head_dim = config.head_dim`,
`scale = head_dim ** -0.5` (raising `ZeroDivisionError` when `head_dim = 0`),
then `n_repeat = num_attention_heads // num_kv_heads` (raising on a zero
divisor), in that order; no divisibility check. -/
def qwen3InitNRepeat (headDim numHeads numKvHeads : ℕ) : Except String ℕ :=
  if headDim = 0 then
    .error "ZeroDivisionError: 0.0 cannot be raised to a negative power"
  else if numKvHeads = 0 then
    .error "ZeroDivisionError: integer division or modulo by zero"
  else .ok (numHeads / numKvHeads)

/-! ## Incremental (token-by-token, cached) decoding -/

/-- The single-token slice of the input starting at position `t`. -/
def stepX (x : ℕ → ℕ → ℚ) (t : ℕ) : ℕ → ℕ → ℚ :=
  fun u => x (t + u)

/-- The standard causal mask the caller supplies for a full-sequence
(prefill) call: `0` at keys `s ≤ t`, `-∞` at later keys. -/
def causalMask : ℕ → ℕ → WithBot ℚ :=
  fun t s => if s ≤ t then 0 else ⊥

/-- The qwen3 cache after feeding tokens `0, …, t-1` one at a time (step `u`
passes the single row `x u` at position offset `u`). -/
def qwen3StepCache (rsqrt : ℚ → ℚ) (c : Qwen3Cfg) (w : Qwen3AttnW)
    (cosT sinT : ℕ → ℕ → ℚ) (x : ℕ → ℕ → ℚ) : ℕ → KVEntry
  | 0 => KVEntry.empty
  | t + 1 =>
    (qwen3StepCache rsqrt c w cosT sinT x t).update 1
      (qwen3KT rsqrt c w cosT sinT t (stepX x t))
      (qwen3VT c w (stepX x t))

/-- The qwen3 attention output of decode step `t`: one token, all-zero
(fully permitted) mask over the accumulated history, cache of the first `t`
tokens. -/
def qwen3StepOut (e rsqrt : ℚ → ℚ) (c : Qwen3Cfg) (w : Qwen3AttnW)
    (cosT sinT : ℕ → ℕ → ℚ) (x : ℕ → ℕ → ℚ) (t : ℕ) : ℕ → ℕ → ℚ :=
  qwen3Attention e rsqrt c w cosT sinT t 1 (stepX x t) (fun _ _ => 0)
    (some (qwen3StepCache rsqrt c w cosT sinT x t))

/-- The phi3 cache after feeding tokens `0, …, t-1` one at a time. -/
def phi3StepCache (c : Phi3Cfg) (w : Phi3AttnW)
    (cosT sinT : ℕ → ℕ → ℚ) (x : ℕ → ℕ → ℚ) : ℕ → KVEntry
  | 0 => KVEntry.empty
  | t + 1 =>
    (phi3StepCache c w cosT sinT x t).update 1
      (phi3KT c w cosT sinT t (stepX x t))
      (phi3VT c w (stepX x t))

/-- The phi3 attention output of decode step `t`. -/
def phi3StepOut (e : ℚ → ℚ) (c : Phi3Cfg) (w : Phi3AttnW)
    (cosT sinT : ℕ → ℕ → ℚ) (x : ℕ → ℕ → ℚ) (t : ℕ) : ℕ → ℕ → ℚ :=
  phi3Attention e c w cosT sinT t 1 (stepX x t) (fun _ _ => 0)
    (some (phi3StepCache c w cosT sinT x t))

/-! ## Spec-side comparison definitions for the refinement claims -/

/-- Column-blockwise concatenation of two weight matrices: the first `n` output
features come from `A`, the rest from `B`.  Used to express "the fused weight is
the concatenation of the separate weights". -/
def concatCols (n : ℕ) (A B : ℕ → ℕ → ℚ) : ℕ → ℕ → ℚ :=
  fun i o => if o < n then A i o else B i (o - n)

/-- The query slice `qkv[:, :, :query_pos]` of phi3 (line 23), one row. -/
def phi3QSlice (c : Phi3Cfg) (w : Phi3AttnW) (xRow : ℕ → ℚ) : ℕ → ℚ :=
  fun f => linearRow c.hiddenSize w.wqkv xRow f

/-- The key slice `qkv[:, :, query_pos:kv_pos]` of phi3 (line 24), one row. -/
def phi3KSlice (c : Phi3Cfg) (w : Phi3AttnW) (xRow : ℕ → ℚ) : ℕ → ℚ :=
  fun f => linearRow c.hiddenSize w.wqkv xRow (phi3QPos c + f)

/-- The value slice `qkv[:, :, kv_pos:]` of phi3 (line 25), one row. -/
def phi3VSlice (c : Phi3Cfg) (w : Phi3AttnW) (xRow : ℕ → ℚ) : ℕ → ℚ :=
  fun f => linearRow c.hiddenSize w.wqkv xRow (phi3KVPos c + f)

/-- phi3 attention with the head-axis repetition performed unconditionally
(the guard of line 35 removed), for comparison against the guarded code. -/
def phi3KRepAlways (c : Phi3Cfg) (w : Phi3AttnW) (cosT sinT : ℕ → ℕ → ℚ)
    (off L : ℕ) (x : ℕ → ℕ → ℚ) (cache : Option KVEntry) : ℕ → ℕ → ℕ → ℚ :=
  repeatKV (c.numHeads / c.numKvHeads) (phi3KAll c w cosT sinT off L x cache)

/-- phi3 value tensor with unconditional repetition. -/
def phi3VRepAlways (c : Phi3Cfg) (w : Phi3AttnW) (cosT sinT : ℕ → ℕ → ℚ)
    (off L : ℕ) (x : ℕ → ℕ → ℚ) (cache : Option KVEntry) : ℕ → ℕ → ℕ → ℚ :=
  repeatKV (c.numHeads / c.numKvHeads) (phi3VAll c w cosT sinT off L x cache)

/-- phi3 attention output with unconditional repetition. -/
def phi3AttentionRepeatAlways (e : ℚ → ℚ) (c : Phi3Cfg) (w : Phi3AttnW)
    (cosT sinT : ℕ → ℕ → ℚ) (off L : ℕ) (x : ℕ → ℕ → ℚ)
    (mask : ℕ → ℕ → WithBot ℚ) (cache : Option KVEntry) : ℕ → ℕ → ℚ :=
  fun t f =>
    linearRow (c.numHeads * phi3HeadDim c) w.wo
      (mergeHeads (phi3HeadDim c)
        (attnVals (phi3S c w cosT sinT off L x cache)
          (attnProbs e c.scale (phi3HeadDim c) (phi3S c w cosT sinT off L x cache) mask
            (phi3QT c w cosT sinT off x)
            (phi3KRepAlways c w cosT sinT off L x cache))
          (phi3VRepAlways c w cosT sinT off L x cache)) t) f

/-- qwen3 key tensor with unconditional repetition (guard of line 37 removed). -/
def qwen3KRepAlways (rsqrt : ℚ → ℚ) (c : Qwen3Cfg) (w : Qwen3AttnW)
    (cosT sinT : ℕ → ℕ → ℚ) (off L : ℕ) (x : ℕ → ℕ → ℚ)
    (cache : Option KVEntry) : ℕ → ℕ → ℕ → ℚ :=
  repeatKV (qwen3NRepeat c) (qwen3KAll rsqrt c w cosT sinT off L x cache)

/-- qwen3 value tensor with unconditional repetition. -/
def qwen3VRepAlways (rsqrt : ℚ → ℚ) (c : Qwen3Cfg) (w : Qwen3AttnW)
    (cosT sinT : ℕ → ℕ → ℚ) (off L : ℕ) (x : ℕ → ℕ → ℚ)
    (cache : Option KVEntry) : ℕ → ℕ → ℕ → ℚ :=
  repeatKV (qwen3NRepeat c) (qwen3VAll rsqrt c w cosT sinT off L x cache)

/-- qwen3 attention output with unconditional repetition. -/
def qwen3AttentionRepeatAlways (e rsqrt : ℚ → ℚ) (c : Qwen3Cfg) (w : Qwen3AttnW)
    (cosT sinT : ℕ → ℕ → ℚ) (off L : ℕ) (x : ℕ → ℕ → ℚ)
    (mask : ℕ → ℕ → WithBot ℚ) (cache : Option KVEntry) : ℕ → ℕ → ℚ :=
  fun t f =>
    linearRow (c.numHeads * c.headDim) w.wo
      (mergeHeads c.headDim
        (attnVals (qwen3S rsqrt c w cosT sinT off L x cache)
          (attnProbs e c.scale c.headDim (qwen3S rsqrt c w cosT sinT off L x cache) mask
            (qwen3QT rsqrt c w cosT sinT off x)
            (qwen3KRepAlways rsqrt c w cosT sinT off L x cache))
          (qwen3VRepAlways rsqrt c w cosT sinT off L x cache)) t) f

/-! ## Small all-ones instances for concrete evaluations -/

/-- A one-dimensional qwen3 configuration (all sizes 1, eps and scale 1). -/
def qwen3CfgOne : Qwen3Cfg := ⟨1, 1, 1, 1, 1, 1, 1, 1⟩

/-- All-ones qwen3 attention weights. -/
def qwen3AttnWOne : Qwen3AttnW :=
  ⟨fun _ _ => 1, fun _ _ => 1, fun _ _ => 1, fun _ _ => 1, fun _ => 1, fun _ => 1⟩

/-- All-ones qwen3 block weights. -/
def qwen3BlockWOne : Qwen3BlockW :=
  ⟨qwen3AttnWOne, fun _ _ => 1, fun _ _ => 1, fun _ _ => 1, fun _ => 1, fun _ => 1⟩

/-! ## Generic facts about the masked softmax -/

theorem expW_nonneg (e : ℚ → ℚ) (he : ∀ x, 0 < e x) (s : WithBot ℚ) :
    0 ≤ expW e s := by
  cases s with
  | bot => simp [expW]
  | coe x => exact le_of_lt (he x)

theorem softmaxRow_of_bot (e : ℚ → ℚ) (n : ℕ) (s : ℕ → WithBot ℚ) (j : ℕ)
    (hj : s j = ⊥) : softmaxRow e n s j = 0 := by
  simp [softmaxRow, hj, expW]

theorem softmaxRow_sum_one (e : ℚ → ℚ) (he : ∀ x, 0 < e x) (n : ℕ)
    (s : ℕ → WithBot ℚ) (hex : ∃ j, j < n ∧ s j ≠ ⊥) :
    ∑ j ∈ Finset.range n, softmaxRow e n s j = 1 := by
  obtain ⟨j, hj, hne⟩ := hex
  have hD : 0 < ∑ k ∈ Finset.range n, expW e ((s k).map fun y => y - rowMax n s) := by
    apply Finset.sum_pos'
    · intro i _
      exact expW_nonneg e he _
    · refine ⟨j, Finset.mem_range.mpr hj, ?_⟩
      obtain ⟨a, ha⟩ := WithBot.ne_bot_iff_exists.mp hne
      rw [← ha]
      simpa [expW] using he (a - rowMax n s)
  unfold softmaxRow
  rw [← Finset.sum_div]
  exact div_self (ne_of_gt hD)

theorem rowMax_truncate (n m : ℕ) (hmn : m ≤ n) (s : ℕ → WithBot ℚ)
    (hbot : ∀ j, m ≤ j → j < n → s j = ⊥) : rowMax n s = rowMax m s := by
  unfold rowMax
  congr 1
  rw [Finset.range_eq_Ico,
    ← Finset.Ico_union_Ico_eq_Ico (Nat.zero_le m) hmn, Finset.sup_union,
    ← Finset.range_eq_Ico]
  have h2 : (Finset.Ico m n).sup (fun j => s j) = ⊥ := by
    apply (Finset.sup_eq_bot_iff _ _).mpr
    intro j hjm
    obtain ⟨h1, h2⟩ := Finset.mem_Ico.mp hjm
    exact hbot j h1 h2
  rw [h2, sup_bot_eq]

theorem softmaxRow_denom_truncate (e : ℚ → ℚ) (n m : ℕ) (hmn : m ≤ n)
    (s : ℕ → WithBot ℚ) (hbot : ∀ j, m ≤ j → j < n → s j = ⊥) (q : ℚ) :
    ∑ k ∈ Finset.range n, expW e ((s k).map fun y => y - q)
      = ∑ k ∈ Finset.range m, expW e ((s k).map fun y => y - q) := by
  symm
  apply Finset.sum_subset (Finset.range_subset.mpr hmn)
  intro k hkn hkm
  rw [hbot k (le_of_not_lt fun h => hkm (Finset.mem_range.mpr h)) (Finset.mem_range.mp hkn)]
  simp [expW]

theorem softmaxRow_truncate (e : ℚ → ℚ) (n m : ℕ) (hmn : m ≤ n)
    (s : ℕ → WithBot ℚ) (hbot : ∀ j, m ≤ j → j < n → s j = ⊥) (j : ℕ) :
    softmaxRow e n s j = softmaxRow e m s j := by
  unfold softmaxRow
  rw [rowMax_truncate n m hmn s hbot,
    softmaxRow_denom_truncate e n m hmn s hbot (rowMax m s)]

theorem softmaxRow_weightedSum_truncate (e : ℚ → ℚ) (n m : ℕ) (hmn : m ≤ n)
    (s : ℕ → WithBot ℚ) (hbot : ∀ j, m ≤ j → j < n → s j = ⊥) (v : ℕ → ℚ) :
    ∑ j ∈ Finset.range n, softmaxRow e n s j * v j
      = ∑ j ∈ Finset.range m, softmaxRow e m s j * v j := by
  have h1 : ∑ j ∈ Finset.range n, softmaxRow e n s j * v j
      = ∑ j ∈ Finset.range m, softmaxRow e n s j * v j := by
    symm
    apply Finset.sum_subset (Finset.range_subset.mpr hmn)
    intro k hkn hkm
    rw [softmaxRow_of_bot e n s k
      (hbot k (le_of_not_lt fun h => hkm (Finset.mem_range.mpr h)) (Finset.mem_range.mp hkn))]
    ring
  rw [h1]
  apply Finset.sum_congr rfl
  intro j hj
  rw [softmaxRow_truncate e n m hmn s hbot j]

theorem softmaxRow_congr (e : ℚ → ℚ) (m : ℕ) (s s' : ℕ → WithBot ℚ)
    (hss : ∀ j, j < m → s j = s' j) (j : ℕ) (hj : j < m) :
    softmaxRow e m s j = softmaxRow e m s' j := by
  have hmax : rowMax m s = rowMax m s' := by
    unfold rowMax
    congr 1
    apply Finset.sup_congr rfl
    intro k hk
    exact hss k (Finset.mem_range.mp hk)
  unfold softmaxRow
  rw [hmax, hss j hj]
  congr 1
  apply Finset.sum_congr rfl
  intro k hk
  rw [hss k (Finset.mem_range.mp hk)]

/-! ## Full-sequence vs incremental attention: generic tail argument -/

theorem attnVals_truncate (e : ℚ → ℚ) (scale : ℚ) (hd L t : ℕ) (ht : t < L)
    (qF kF vF qS kS vS : ℕ → ℕ → ℕ → ℚ) (maskF maskS : ℕ → ℕ → WithBot ℚ)
    (hq : ∀ h d, qS h 0 d = qF h t d)
    (hk : ∀ h s d, s < t + 1 → kS h s d = kF h s d)
    (hv : ∀ h s d, s < t + 1 → vS h s d = vF h s d)
    (hmS : ∀ s, s < t + 1 → maskS 0 s = 0)
    (hmF0 : ∀ s, s ≤ t → maskF t s = 0)
    (hmFbot : ∀ s, t < s → maskF t s = ⊥) (h d : ℕ) :
    attnVals L (attnProbs e scale hd L maskF qF kF) vF h t d
      = attnVals (t + 1) (attnProbs e scale hd (t + 1) maskS qS kS) vS h 0 d := by
  have hbot : ∀ j, t + 1 ≤ j → j < L →
      maskedScores scale hd maskF qF kF h t j = ⊥ := by
    intro j hj1 _
    unfold maskedScores
    rw [hmFbot j (Nat.lt_of_succ_le hj1)]
    exact WithBot.add_bot _
  have hscore : ∀ j, j < t + 1 →
      maskedScores scale hd maskF qF kF h t j
        = maskedScores scale hd maskS qS kS h 0 j := by
    intro j hj
    unfold maskedScores
    rw [hmF0 j (Nat.lt_succ_iff.mp hj), hmS j hj]
    have hdot : (∑ d' ∈ Finset.range hd, qF h t d' * kF h j d')
        = ∑ d' ∈ Finset.range hd, qS h 0 d' * kS h j d' := by
      apply Finset.sum_congr rfl
      intro d' _
      rw [hq h d', hk h j d' hj]
    rw [hdot]
  unfold attnVals attnProbs
  rw [softmaxRow_weightedSum_truncate e L (t + 1) (Nat.succ_le_of_lt ht) _ hbot
    (fun s => vF h s d)]
  apply Finset.sum_congr rfl
  intro s hs
  have hs' := Finset.mem_range.mp hs
  rw [hv h s d hs', softmaxRow_congr e (t + 1) _ _ hscore s hs']

theorem attnTail_truncate (e : ℚ → ℚ) (scale : ℚ) (hd oD : ℕ) (wo : ℕ → ℕ → ℚ)
    (L t : ℕ) (ht : t < L)
    (qF kF vF qS kS vS : ℕ → ℕ → ℕ → ℚ) (maskF maskS : ℕ → ℕ → WithBot ℚ)
    (hq : ∀ h d, qS h 0 d = qF h t d)
    (hk : ∀ h s d, s < t + 1 → kS h s d = kF h s d)
    (hv : ∀ h s d, s < t + 1 → vS h s d = vF h s d)
    (hmS : ∀ s, s < t + 1 → maskS 0 s = 0)
    (hmF0 : ∀ s, s ≤ t → maskF t s = 0)
    (hmFbot : ∀ s, t < s → maskF t s = ⊥) (f : ℕ) :
    linearRow oD wo
        (mergeHeads hd (attnVals L (attnProbs e scale hd L maskF qF kF) vF) t) f
      = linearRow oD wo
        (mergeHeads hd (attnVals (t + 1) (attnProbs e scale hd (t + 1) maskS qS kS) vS) 0) f := by
  unfold linearRow
  apply Finset.sum_congr rfl
  intro i _
  congr 1
  unfold mergeHeads
  exact attnVals_truncate e scale hd L t ht qF kF vF qS kS vS maskF maskS
    hq hk hv hmS hmF0 hmFbot (i / hd) (i % hd)

/-! ## qwen3: the incrementally built cache reproduces the full-sequence keys -/

theorem qwen3StepCache_len (rsqrt : ℚ → ℚ) (c : Qwen3Cfg) (w : Qwen3AttnW)
    (cosT sinT : ℕ → ℕ → ℚ) (x : ℕ → ℕ → ℚ) (t : ℕ) :
    (qwen3StepCache rsqrt c w cosT sinT x t).len = t := by
  induction t with
  | zero => rfl
  | succ n ih => simp [qwen3StepCache, KVEntry.update, ih]

theorem qwen3StepCache_keys (rsqrt : ℚ → ℚ) (c : Qwen3Cfg) (w : Qwen3AttnW)
    (cosT sinT : ℕ → ℕ → ℚ) (x : ℕ → ℕ → ℚ) (t h s d : ℕ) (hs : s < t) :
    (qwen3StepCache rsqrt c w cosT sinT x t).keys h s d
      = qwen3KT rsqrt c w cosT sinT 0 x h s d := by
  induction t with
  | zero => exact absurd hs (Nat.not_lt_zero s)
  | succ n ih =>
    have hlen := qwen3StepCache_len rsqrt c w cosT sinT x n
    rcases Nat.lt_or_ge s n with hsn | hsn
    · simp only [qwen3StepCache, KVEntry.update, hlen]
      rw [if_pos hsn]
      exact ih hsn
    · have hseq : s = n := by omega
      subst hseq
      simp only [qwen3StepCache, KVEntry.update, hlen]
      rw [if_neg (lt_irrefl s)]
      simp [qwen3KT, stepX]

theorem qwen3StepCache_vals (rsqrt : ℚ → ℚ) (c : Qwen3Cfg) (w : Qwen3AttnW)
    (cosT sinT : ℕ → ℕ → ℚ) (x : ℕ → ℕ → ℚ) (t h s d : ℕ) (hs : s < t) :
    (qwen3StepCache rsqrt c w cosT sinT x t).vals h s d
      = qwen3VT c w x h s d := by
  induction t with
  | zero => exact absurd hs (Nat.not_lt_zero s)
  | succ n ih =>
    have hlen := qwen3StepCache_len rsqrt c w cosT sinT x n
    rcases Nat.lt_or_ge s n with hsn | hsn
    · simp only [qwen3StepCache, KVEntry.update, hlen]
      rw [if_pos hsn]
      exact ih hsn
    · have hseq : s = n := by omega
      subst hseq
      simp only [qwen3StepCache, KVEntry.update, hlen]
      rw [if_neg (lt_irrefl s)]
      simp [qwen3VT, stepX]

theorem qwen3StepS (rsqrt : ℚ → ℚ) (c : Qwen3Cfg) (w : Qwen3AttnW)
    (cosT sinT : ℕ → ℕ → ℚ) (x : ℕ → ℕ → ℚ) (t : ℕ) :
    qwen3S rsqrt c w cosT sinT t 1 (stepX x t)
      (some (qwen3StepCache rsqrt c w cosT sinT x t)) = t + 1 := by
  show ((qwen3StepCache rsqrt c w cosT sinT x t).update 1
      (qwen3KT rsqrt c w cosT sinT t (stepX x t)) (qwen3VT c w (stepX x t))).len = t + 1
  simp [KVEntry.update, qwen3StepCache_len]

theorem qwen3StepKAll (rsqrt : ℚ → ℚ) (c : Qwen3Cfg) (w : Qwen3AttnW)
    (cosT sinT : ℕ → ℕ → ℚ) (x : ℕ → ℕ → ℚ) (L t h s d : ℕ) (hs : s < t + 1) :
    qwen3KAll rsqrt c w cosT sinT t 1 (stepX x t)
        (some (qwen3StepCache rsqrt c w cosT sinT x t)) h s d
      = qwen3KAll rsqrt c w cosT sinT 0 L x none h s d := by
  have hL : qwen3KAll rsqrt c w cosT sinT t 1 (stepX x t)
      (some (qwen3StepCache rsqrt c w cosT sinT x t)) h s d
        = (qwen3StepCache rsqrt c w cosT sinT x (t + 1)).keys h s d := rfl
  rw [hL, qwen3StepCache_keys rsqrt c w cosT sinT x (t + 1) h s d hs]
  rfl

theorem qwen3StepVAll (rsqrt : ℚ → ℚ) (c : Qwen3Cfg) (w : Qwen3AttnW)
    (cosT sinT : ℕ → ℕ → ℚ) (x : ℕ → ℕ → ℚ) (L t h s d : ℕ) (hs : s < t + 1) :
    qwen3VAll rsqrt c w cosT sinT t 1 (stepX x t)
        (some (qwen3StepCache rsqrt c w cosT sinT x t)) h s d
      = qwen3VAll rsqrt c w cosT sinT 0 L x none h s d := by
  have hL : qwen3VAll rsqrt c w cosT sinT t 1 (stepX x t)
      (some (qwen3StepCache rsqrt c w cosT sinT x t)) h s d
        = (qwen3StepCache rsqrt c w cosT sinT x (t + 1)).vals h s d := rfl
  rw [hL, qwen3StepCache_vals rsqrt c w cosT sinT x (t + 1) h s d hs]
  rfl

theorem qwen3StepKRep (rsqrt : ℚ → ℚ) (c : Qwen3Cfg) (w : Qwen3AttnW)
    (cosT sinT : ℕ → ℕ → ℚ) (x : ℕ → ℕ → ℚ) (L t h s d : ℕ) (hs : s < t + 1) :
    qwen3KRep rsqrt c w cosT sinT t 1 (stepX x t)
        (some (qwen3StepCache rsqrt c w cosT sinT x t)) h s d
      = qwen3KRep rsqrt c w cosT sinT 0 L x none h s d := by
  unfold qwen3KRep
  by_cases hr : 1 < qwen3NRepeat c
  · rw [if_pos hr, if_pos hr]
    exact qwen3StepKAll rsqrt c w cosT sinT x L t (h / qwen3NRepeat c) s d hs
  · rw [if_neg hr, if_neg hr]
    exact qwen3StepKAll rsqrt c w cosT sinT x L t h s d hs

theorem qwen3StepVRep (rsqrt : ℚ → ℚ) (c : Qwen3Cfg) (w : Qwen3AttnW)
    (cosT sinT : ℕ → ℕ → ℚ) (x : ℕ → ℕ → ℚ) (L t h s d : ℕ) (hs : s < t + 1) :
    qwen3VRep rsqrt c w cosT sinT t 1 (stepX x t)
        (some (qwen3StepCache rsqrt c w cosT sinT x t)) h s d
      = qwen3VRep rsqrt c w cosT sinT 0 L x none h s d := by
  unfold qwen3VRep
  by_cases hr : 1 < qwen3NRepeat c
  · rw [if_pos hr, if_pos hr]
    exact qwen3StepVAll rsqrt c w cosT sinT x L t (h / qwen3NRepeat c) s d hs
  · rw [if_neg hr, if_neg hr]
    exact qwen3StepVAll rsqrt c w cosT sinT x L t h s d hs

/-! ## phi3: the incrementally built cache reproduces the full-sequence keys -/

theorem phi3StepCache_len (c : Phi3Cfg) (w : Phi3AttnW)
    (cosT sinT : ℕ → ℕ → ℚ) (x : ℕ → ℕ → ℚ) (t : ℕ) :
    (phi3StepCache c w cosT sinT x t).len = t := by
  induction t with
  | zero => rfl
  | succ n ih => simp [phi3StepCache, KVEntry.update, ih]

theorem phi3StepCache_keys (c : Phi3Cfg) (w : Phi3AttnW)
    (cosT sinT : ℕ → ℕ → ℚ) (x : ℕ → ℕ → ℚ) (t h s d : ℕ) (hs : s < t) :
    (phi3StepCache c w cosT sinT x t).keys h s d
      = phi3KT c w cosT sinT 0 x h s d := by
  induction t with
  | zero => exact absurd hs (Nat.not_lt_zero s)
  | succ n ih =>
    have hlen := phi3StepCache_len c w cosT sinT x n
    rcases Nat.lt_or_ge s n with hsn | hsn
    · simp only [phi3StepCache, KVEntry.update, hlen]
      rw [if_pos hsn]
      exact ih hsn
    · have hseq : s = n := by omega
      subst hseq
      simp only [phi3StepCache, KVEntry.update, hlen]
      rw [if_neg (lt_irrefl s)]
      simp [phi3KT, stepX]

theorem phi3StepCache_vals (c : Phi3Cfg) (w : Phi3AttnW)
    (cosT sinT : ℕ → ℕ → ℚ) (x : ℕ → ℕ → ℚ) (t h s d : ℕ) (hs : s < t) :
    (phi3StepCache c w cosT sinT x t).vals h s d
      = phi3VT c w x h s d := by
  induction t with
  | zero => exact absurd hs (Nat.not_lt_zero s)
  | succ n ih =>
    have hlen := phi3StepCache_len c w cosT sinT x n
    rcases Nat.lt_or_ge s n with hsn | hsn
    · simp only [phi3StepCache, KVEntry.update, hlen]
      rw [if_pos hsn]
      exact ih hsn
    · have hseq : s = n := by omega
      subst hseq
      simp only [phi3StepCache, KVEntry.update, hlen]
      rw [if_neg (lt_irrefl s)]
      simp [phi3VT, stepX]

theorem phi3StepS (c : Phi3Cfg) (w : Phi3AttnW)
    (cosT sinT : ℕ → ℕ → ℚ) (x : ℕ → ℕ → ℚ) (t : ℕ) :
    phi3S c w cosT sinT t 1 (stepX x t)
      (some (phi3StepCache c w cosT sinT x t)) = t + 1 := by
  show ((phi3StepCache c w cosT sinT x t).update 1
      (phi3KT c w cosT sinT t (stepX x t)) (phi3VT c w (stepX x t))).len = t + 1
  simp [KVEntry.update, phi3StepCache_len]

theorem phi3StepKAll (c : Phi3Cfg) (w : Phi3AttnW)
    (cosT sinT : ℕ → ℕ → ℚ) (x : ℕ → ℕ → ℚ) (L t h s d : ℕ) (hs : s < t + 1) :
    phi3KAll c w cosT sinT t 1 (stepX x t)
        (some (phi3StepCache c w cosT sinT x t)) h s d
      = phi3KAll c w cosT sinT 0 L x none h s d := by
  have hL : phi3KAll c w cosT sinT t 1 (stepX x t)
      (some (phi3StepCache c w cosT sinT x t)) h s d
        = (phi3StepCache c w cosT sinT x (t + 1)).keys h s d := rfl
  rw [hL, phi3StepCache_keys c w cosT sinT x (t + 1) h s d hs]
  rfl

theorem phi3StepVAll (c : Phi3Cfg) (w : Phi3AttnW)
    (cosT sinT : ℕ → ℕ → ℚ) (x : ℕ → ℕ → ℚ) (L t h s d : ℕ) (hs : s < t + 1) :
    phi3VAll c w cosT sinT t 1 (stepX x t)
        (some (phi3StepCache c w cosT sinT x t)) h s d
      = phi3VAll c w cosT sinT 0 L x none h s d := by
  have hL : phi3VAll c w cosT sinT t 1 (stepX x t)
      (some (phi3StepCache c w cosT sinT x t)) h s d
        = (phi3StepCache c w cosT sinT x (t + 1)).vals h s d := rfl
  rw [hL, phi3StepCache_vals c w cosT sinT x (t + 1) h s d hs]
  rfl

theorem phi3StepKRep (c : Phi3Cfg) (w : Phi3AttnW)
    (cosT sinT : ℕ → ℕ → ℚ) (x : ℕ → ℕ → ℚ) (L t h s d : ℕ) (hs : s < t + 1) :
    phi3KRep c w cosT sinT t 1 (stepX x t)
        (some (phi3StepCache c w cosT sinT x t)) h s d
      = phi3KRep c w cosT sinT 0 L x none h s d := by
  unfold phi3KRep
  by_cases hr : c.numKvHeads < c.numHeads
  · rw [if_pos hr, if_pos hr]
    exact phi3StepKAll c w cosT sinT x L t (h / (c.numHeads / c.numKvHeads)) s d hs
  · rw [if_neg hr, if_neg hr]
    exact phi3StepKAll c w cosT sinT x L t h s d hs

theorem phi3StepVRep (c : Phi3Cfg) (w : Phi3AttnW)
    (cosT sinT : ℕ → ℕ → ℚ) (x : ℕ → ℕ → ℚ) (L t h s d : ℕ) (hs : s < t + 1) :
    phi3VRep c w cosT sinT t 1 (stepX x t)
        (some (phi3StepCache c w cosT sinT x t)) h s d
      = phi3VRep c w cosT sinT 0 L x none h s d := by
  unfold phi3VRep
  by_cases hr : c.numKvHeads < c.numHeads
  · rw [if_pos hr, if_pos hr]
    exact phi3StepVAll c w cosT sinT x L t (h / (c.numHeads / c.numKvHeads)) s d hs
  · rw [if_neg hr, if_neg hr]
    exact phi3StepVAll c w cosT sinT x L t h s d hs

/-- C1: with cache absent, attention over the full sequence under the causal
mask is pure full-sequence self-attention, and it coincides, position by
position, with running the cache-enabled path one token at a time (step `t`
feeds token `t` at offset `t` against the incrementally accumulated cache) —
exactly, in both model variants. -/
theorem prefill_equals_incremental_decode (e : ℚ → ℚ) :
    (∀ (rsqrt : ℚ → ℚ) (c : Qwen3Cfg) (w : Qwen3AttnW) (cosT sinT : ℕ → ℕ → ℚ)
        (L : ℕ) (x : ℕ → ℕ → ℚ) (t : ℕ), t < L → ∀ f : ℕ,
        qwen3Attention e rsqrt c w cosT sinT 0 L x causalMask none t f
          = qwen3StepOut e rsqrt c w cosT sinT x t 0 f)
    ∧ (∀ (c : Phi3Cfg) (w : Phi3AttnW) (cosT sinT : ℕ → ℕ → ℚ)
        (L : ℕ) (x : ℕ → ℕ → ℚ) (t : ℕ), t < L → ∀ f : ℕ,
        phi3Attention e c w cosT sinT 0 L x causalMask none t f
          = phi3StepOut e c w cosT sinT x t 0 f) := by
  constructor
  · intro rsqrt c w cosT sinT L x t ht f
    unfold qwen3StepOut qwen3Attention qwen3Probs
    have hSF : qwen3S rsqrt c w cosT sinT 0 L x none = L := rfl
    rw [hSF, qwen3StepS rsqrt c w cosT sinT x t]
    apply attnTail_truncate e c.scale c.headDim (c.numHeads * c.headDim) w.wo L t ht
    · intro h d
      simp [qwen3QT, stepX]
    · intro h s d hs
      exact qwen3StepKRep rsqrt c w cosT sinT x L t h s d hs
    · intro h s d hs
      exact qwen3StepVRep rsqrt c w cosT sinT x L t h s d hs
    · intro s _
      rfl
    · intro s hs
      simp [causalMask, hs]
    · intro s hs
      simp only [causalMask]
      rw [if_neg (Nat.not_le.mpr hs)]
  · intro c w cosT sinT L x t ht f
    unfold phi3StepOut phi3Attention phi3Probs
    have hSF : phi3S c w cosT sinT 0 L x none = L := rfl
    rw [hSF, phi3StepS c w cosT sinT x t]
    apply attnTail_truncate e c.scale (phi3HeadDim c) (c.numHeads * phi3HeadDim c) w.wo L t ht
    · intro h d
      simp [phi3QT, stepX]
    · intro h s d hs
      exact phi3StepKRep c w cosT sinT x L t h s d hs
    · intro h s d hs
      exact phi3StepVRep c w cosT sinT x L t h s d hs
    · intro s _
      rfl
    · intro s hs
      simp [causalMask, hs]
    · intro s hs
      simp only [causalMask]
      rw [if_neg (Nat.not_le.mpr hs)]

/-- Witness for C1 at a concrete instance: a two-token sequence in a
one-dimensional model, compared at position `t = 1`. -/
theorem prefill_equals_incremental_decode_witness :
    (1 : ℕ) < 2 ∧
      qwen3Attention (fun _ => 1) (fun _ => 1) ⟨1, 1, 1, 1, 1, 1, 1, 1⟩
          ⟨fun _ _ => 1, fun _ _ => 1, fun _ _ => 1, fun _ _ => 1, fun _ => 1, fun _ => 1⟩
          (fun _ _ => 1) (fun _ _ => 1) 0 2 (fun _ _ => 1) causalMask none 1 0
        = qwen3StepOut (fun _ => 1) (fun _ => 1) ⟨1, 1, 1, 1, 1, 1, 1, 1⟩
          ⟨fun _ _ => 1, fun _ _ => 1, fun _ _ => 1, fun _ _ => 1, fun _ => 1, fun _ => 1⟩
          (fun _ _ => 1) (fun _ _ => 1) (fun _ _ => 1) 1 0 0 :=
  ⟨by decide,
    (prefill_equals_incremental_decode (fun _ => 1)).1 (fun _ => 1)
      ⟨1, 1, 1, 1, 1, 1, 1, 1⟩
      ⟨fun _ _ => 1, fun _ _ => 1, fun _ _ => 1, fun _ _ => 1, fun _ => 1, fun _ => 1⟩
      (fun _ _ => 1) (fun _ _ => 1) 2 (fun _ _ => 1) 1 (by decide) 0⟩

/-! ## Grouped-query replication (C2) -/

theorem maskedScores_eq_bot_iff (scale : ℚ) (hd : ℕ) (mask : ℕ → ℕ → WithBot ℚ)
    (q k : ℕ → ℕ → ℕ → ℚ) (h t s : ℕ) :
    maskedScores scale hd mask q k h t s = ⊥ ↔ mask t s = ⊥ := by
  unfold maskedScores
  cases hm : mask t s with
  | bot => simp [WithBot.add_bot]
  | coe a =>
    rw [← WithBot.coe_add]
    exact iff_of_false WithBot.coe_ne_bot WithBot.coe_ne_bot

/-- C2: when the attention-head count exceeds the key/value-head count, the
key/value tensors consumed by the score computation replicate kv-head `g`
contiguously into output head positions `[g*n_repeat, (g+1)*n_repeat)`, in
both variants. -/
theorem gqa_replication_contiguous :
    (∀ (rsqrt : ℚ → ℚ) (c : Qwen3Cfg) (w : Qwen3AttnW) (cosT sinT : ℕ → ℕ → ℚ)
        (off L : ℕ) (x : ℕ → ℕ → ℚ) (cache : Option KVEntry) (g h : ℕ),
        0 < c.numKvHeads → c.numKvHeads < c.numHeads →
        g * qwen3NRepeat c ≤ h → h < (g + 1) * qwen3NRepeat c →
        ∀ s d : ℕ,
          qwen3KRep rsqrt c w cosT sinT off L x cache h s d
              = qwen3KAll rsqrt c w cosT sinT off L x cache g s d
            ∧ qwen3VRep rsqrt c w cosT sinT off L x cache h s d
              = qwen3VAll rsqrt c w cosT sinT off L x cache g s d)
    ∧ (∀ (c : Phi3Cfg) (w : Phi3AttnW) (cosT sinT : ℕ → ℕ → ℚ)
        (off L : ℕ) (x : ℕ → ℕ → ℚ) (cache : Option KVEntry) (g h : ℕ),
        0 < c.numKvHeads → c.numKvHeads < c.numHeads →
        g * (c.numHeads / c.numKvHeads) ≤ h → h < (g + 1) * (c.numHeads / c.numKvHeads) →
        ∀ s d : ℕ,
          phi3KRep c w cosT sinT off L x cache h s d
              = phi3KAll c w cosT sinT off L x cache g s d
            ∧ phi3VRep c w cosT sinT off L x cache h s d
              = phi3VAll c w cosT sinT off L x cache g s d) := by
  constructor
  · intro rsqrt c w cosT sinT off L x cache g h hkv hlt hlo hhi s d
    have hdiv : h / qwen3NRepeat c = g := Nat.div_eq_of_lt_le hlo hhi
    by_cases hr : 1 < qwen3NRepeat c
    · unfold qwen3KRep qwen3VRep
      rw [if_pos hr, if_pos hr]
      unfold repeatKV
      rw [hdiv]
      exact ⟨rfl, rfl⟩
    · have hr1 : qwen3NRepeat c = 1 := by
        have : 1 ≤ qwen3NRepeat c := by
          unfold qwen3NRepeat
          exact (Nat.one_le_div_iff hkv).mpr (le_of_lt hlt)
        omega
      have hg : h = g := by
        rw [hr1] at hlo hhi
        omega
      unfold qwen3KRep qwen3VRep
      rw [if_neg hr, if_neg hr, hg]
      exact ⟨rfl, rfl⟩
  · intro c w cosT sinT off L x cache g h hkv hlt hlo hhi s d
    have hdiv : h / (c.numHeads / c.numKvHeads) = g := Nat.div_eq_of_lt_le hlo hhi
    unfold phi3KRep phi3VRep
    rw [if_pos hlt, if_pos hlt]
    unfold repeatKV
    rw [hdiv]
    exact ⟨rfl, rfl⟩

/-- Witness for C2 at the spec's example sizes: `num_heads = 4`,
`num_kv_heads = 2`, so query head `1` reads kv-head `0` and query head `2`
reads kv-head `1`. -/
theorem gqa_replication_contiguous_witness :
    (0 < 2 ∧ 2 < 4 ∧ 0 * qwen3NRepeat ⟨8, 4, 2, 2, 1, 1, 1, 1⟩ ≤ 1
        ∧ 1 < (0 + 1) * qwen3NRepeat ⟨8, 4, 2, 2, 1, 1, 1, 1⟩)
      ∧ qwen3KRep (fun _ => 1) ⟨8, 4, 2, 2, 1, 1, 1, 1⟩
          ⟨fun _ _ => 1, fun _ _ => 1, fun _ _ => 1, fun _ _ => 1, fun _ => 1, fun _ => 1⟩
          (fun _ _ => 1) (fun _ _ => 1) 0 1 (fun _ _ => 1) none 1 0 0
        = qwen3KAll (fun _ => 1) ⟨8, 4, 2, 2, 1, 1, 1, 1⟩
          ⟨fun _ _ => 1, fun _ _ => 1, fun _ _ => 1, fun _ _ => 1, fun _ => 1, fun _ => 1⟩
          (fun _ _ => 1) (fun _ _ => 1) 0 1 (fun _ _ => 1) none 0 0 0 :=
  ⟨⟨by decide, by decide, by decide, by decide⟩,
    ((gqa_replication_contiguous).1 (fun _ => 1) ⟨8, 4, 2, 2, 1, 1, 1, 1⟩
      ⟨fun _ _ => 1, fun _ _ => 1, fun _ _ => 1, fun _ _ => 1, fun _ => 1, fun _ => 1⟩
      (fun _ _ => 1) (fun _ _ => 1) 0 1 (fun _ _ => 1) none 0 1
      (by decide) (by decide) (by decide) (by decide) 0 0).1⟩

/-- C3: attention scores are the scaled query-key dot products plus the
additive mask, softmaxed along the key axis; for every query row with at least
one non-`-∞` mask entry among the attended keys, the post-softmax weights sum
to `1`, and every key whose mask entry is `-∞` gets weight exactly `0` —
in both model variants (exponential abstracted, assumed positive). -/
theorem softmax_rows_sum_one_masked_zero (e : ℚ → ℚ) (he : ∀ y, 0 < e y) :
    (∀ (rsqrt : ℚ → ℚ) (c : Qwen3Cfg) (w : Qwen3AttnW) (cosT sinT : ℕ → ℕ → ℚ)
        (off L : ℕ) (x : ℕ → ℕ → ℚ) (mask : ℕ → ℕ → WithBot ℚ)
        (cache : Option KVEntry) (h t : ℕ),
        (∃ s, s < qwen3S rsqrt c w cosT sinT off L x cache ∧ mask t s ≠ ⊥) →
        (∑ s ∈ Finset.range (qwen3S rsqrt c w cosT sinT off L x cache),
            qwen3Probs e rsqrt c w cosT sinT off L x mask cache h t s) = 1
          ∧ ∀ s : ℕ, mask t s = ⊥ →
              qwen3Probs e rsqrt c w cosT sinT off L x mask cache h t s = 0)
    ∧ (∀ (c : Phi3Cfg) (w : Phi3AttnW) (cosT sinT : ℕ → ℕ → ℚ)
        (off L : ℕ) (x : ℕ → ℕ → ℚ) (mask : ℕ → ℕ → WithBot ℚ)
        (cache : Option KVEntry) (h t : ℕ),
        (∃ s, s < phi3S c w cosT sinT off L x cache ∧ mask t s ≠ ⊥) →
        (∑ s ∈ Finset.range (phi3S c w cosT sinT off L x cache),
            phi3Probs e c w cosT sinT off L x mask cache h t s) = 1
          ∧ ∀ s : ℕ, mask t s = ⊥ →
              phi3Probs e c w cosT sinT off L x mask cache h t s = 0) := by
  constructor
  · intro rsqrt c w cosT sinT off L x mask cache h t hex
    unfold qwen3Probs attnProbs
    constructor
    · apply softmaxRow_sum_one e he
      obtain ⟨s, hs, hne⟩ := hex
      refine ⟨s, hs, ?_⟩
      rw [Ne, maskedScores_eq_bot_iff]
      exact hne
    · intro s hsbot
      apply softmaxRow_of_bot
      rw [maskedScores_eq_bot_iff]
      exact hsbot
  · intro c w cosT sinT off L x mask cache h t hex
    unfold phi3Probs attnProbs
    constructor
    · apply softmaxRow_sum_one e he
      obtain ⟨s, hs, hne⟩ := hex
      refine ⟨s, hs, ?_⟩
      rw [Ne, maskedScores_eq_bot_iff]
      exact hne
    · intro s hsbot
      apply softmaxRow_of_bot
      rw [maskedScores_eq_bot_iff]
      exact hsbot

/-- Witness for C3: a one-head, two-key row under the causal mask at query
position `0` — weights sum to `1` and the masked key `1` gets weight `0`. -/
theorem softmax_rows_sum_one_masked_zero_witness :
    (0 < (1 : ℚ) ∧ (0 : ℕ) < qwen3S (fun _ => 1) ⟨1, 1, 1, 1, 1, 1, 1, 1⟩
        ⟨fun _ _ => 1, fun _ _ => 1, fun _ _ => 1, fun _ _ => 1, fun _ => 1, fun _ => 1⟩
        (fun _ _ => 1) (fun _ _ => 1) 0 2 (fun _ _ => 1) none
      ∧ causalMask 0 0 ≠ ⊥)
      ∧ (∑ s ∈ Finset.range (qwen3S (fun _ => 1) ⟨1, 1, 1, 1, 1, 1, 1, 1⟩
            ⟨fun _ _ => 1, fun _ _ => 1, fun _ _ => 1, fun _ _ => 1, fun _ => 1, fun _ => 1⟩
            (fun _ _ => 1) (fun _ _ => 1) 0 2 (fun _ _ => 1) none),
          qwen3Probs (fun _ => 1) (fun _ => 1) ⟨1, 1, 1, 1, 1, 1, 1, 1⟩
            ⟨fun _ _ => 1, fun _ _ => 1, fun _ _ => 1, fun _ _ => 1, fun _ => 1, fun _ => 1⟩
            (fun _ _ => 1) (fun _ _ => 1) 0 2 (fun _ _ => 1) causalMask none 0 0 s) = 1
      ∧ qwen3Probs (fun _ => 1) (fun _ => 1) ⟨1, 1, 1, 1, 1, 1, 1, 1⟩
          ⟨fun _ _ => 1, fun _ _ => 1, fun _ _ => 1, fun _ _ => 1, fun _ => 1, fun _ => 1⟩
          (fun _ _ => 1) (fun _ _ => 1) 0 2 (fun _ _ => 1) causalMask none 0 0 1 = 0 :=
  ⟨⟨by norm_num, by decide, by decide⟩,
    ((softmax_rows_sum_one_masked_zero (fun _ => 1) (fun _ => by norm_num)).1
      (fun _ => 1) ⟨1, 1, 1, 1, 1, 1, 1, 1⟩
      ⟨fun _ _ => 1, fun _ _ => 1, fun _ _ => 1, fun _ _ => 1, fun _ => 1, fun _ => 1⟩
      (fun _ _ => 1) (fun _ _ => 1) 0 2 (fun _ _ => 1) causalMask none 0 0
      ⟨0, by decide, by decide⟩).1,
    ((softmax_rows_sum_one_masked_zero (fun _ => 1) (fun _ => by norm_num)).1
      (fun _ => 1) ⟨1, 1, 1, 1, 1, 1, 1, 1⟩
      ⟨fun _ _ => 1, fun _ _ => 1, fun _ _ => 1, fun _ _ => 1, fun _ => 1, fun _ => 1⟩
      (fun _ _ => 1) (fun _ _ => 1) 0 2 (fun _ _ => 1) causalMask none 0 0
      ⟨0, by decide, by decide⟩).2 1 (by decide)⟩

/-- C4: each TransformerBlock computes exactly `x' = x + Attention(Norm1(x))`
followed by `out = x' + FeedForward(Norm2(x'))` — two residual additions on
the unchanged input, in both model variants. -/
theorem block_pre_norm_two_residuals (e rsqrt : ℚ → ℚ) :
    (∀ (c : Qwen3Cfg) (b : Qwen3BlockW) (cosT sinT : ℕ → ℕ → ℚ) (off L : ℕ)
        (x : ℕ → ℕ → ℚ) (mask : ℕ → ℕ → WithBot ℚ) (cache : Option KVEntry) (t f : ℕ),
        qwen3Block e rsqrt c b cosT sinT off L x mask cache t f
          = (x t f
              + qwen3Attention e rsqrt c b.attn cosT sinT off L
                  (fun u => rmsnormRow rsqrt c.hiddenSize c.eps b.inScale (x u)) mask cache t f)
            + qwen3MLP e c.hiddenSize c.intermediateSize b.wg b.wu b.wd
                (rmsnormRow rsqrt c.hiddenSize c.eps b.postScale
                  (fun i => x t i
                    + qwen3Attention e rsqrt c b.attn cosT sinT off L
                        (fun u => rmsnormRow rsqrt c.hiddenSize c.eps b.inScale (x u))
                        mask cache t i)) f)
    ∧ (∀ (c : Phi3Cfg) (b : Phi3BlockW) (cosT sinT : ℕ → ℕ → ℚ) (off L : ℕ)
        (x : ℕ → ℕ → ℚ) (mask : ℕ → ℕ → WithBot ℚ) (cache : Option KVEntry) (t f : ℕ),
        phi3Block e rsqrt c b cosT sinT off L x mask cache t f
          = (x t f
              + phi3Attention e c b.attn cosT sinT off L
                  (fun u => rmsnormRow rsqrt c.hiddenSize c.eps b.inScale (x u)) mask cache t f)
            + phi3MLP e c.hiddenSize c.intermediateSize b.wgu b.wd
                (rmsnormRow rsqrt c.hiddenSize c.eps b.postScale
                  (fun i => x t i
                    + phi3Attention e c b.attn cosT sinT off L
                        (fun u => rmsnormRow rsqrt c.hiddenSize c.eps b.inScale (x u))
                        mask cache t i)) f) := by
  exact ⟨fun _ _ _ _ _ _ _ _ _ _ _ => rfl, fun _ _ _ _ _ _ _ _ _ _ _ => rfl⟩

/-- C5: slicing the fused qkv projection at `query_pos` and `kv_pos` recovers
exactly the three independent projections whose weights were concatenated into
the fused weight matrix. -/
theorem fused_qkv_equals_separate_projections (c : Phi3Cfg) (w : Phi3AttnW)
    (Wq Wk Wv : ℕ → ℕ → ℚ)
    (hW : w.wqkv = concatCols (phi3QPos c) Wq
      (concatCols (c.numKvHeads * phi3HeadDim c) Wk Wv)) (xRow : ℕ → ℚ) (f : ℕ) :
    (f < phi3QPos c →
      phi3QSlice c w xRow f = linearRow c.hiddenSize Wq xRow f)
    ∧ (f < c.numKvHeads * phi3HeadDim c →
      phi3KSlice c w xRow f = linearRow c.hiddenSize Wk xRow f)
    ∧ (f < c.numKvHeads * phi3HeadDim c →
      phi3VSlice c w xRow f = linearRow c.hiddenSize Wv xRow f) := by
  refine ⟨fun hf => ?_, fun hf => ?_, fun hf => ?_⟩
  · unfold phi3QSlice linearRow
    apply Finset.sum_congr rfl
    intro i _
    rw [hW]
    unfold concatCols
    rw [if_pos hf]
  · unfold phi3KSlice linearRow
    apply Finset.sum_congr rfl
    intro i _
    rw [hW]
    unfold concatCols
    rw [if_neg (by omega), Nat.add_sub_cancel_left, if_pos hf]
  · unfold phi3VSlice linearRow
    apply Finset.sum_congr rfl
    intro i _
    rw [hW]
    unfold concatCols
    have h1 : phi3KVPos c + f = phi3QPos c + (c.numKvHeads * phi3HeadDim c + f) := by
      unfold phi3KVPos
      omega
    rw [h1, if_neg (by omega), Nat.add_sub_cancel_left, if_neg (by omega),
      Nat.add_sub_cancel_left]

/-- Witness for C5: hidden size 2, two heads, one kv head (head_dim 1), all
weight entries 1; each slice agrees with the corresponding separate projection. -/
theorem fused_qkv_equals_separate_projections_witness :
    ((fun _ _ => (1 : ℚ)) : ℕ → ℕ → ℚ)
        = concatCols (phi3QPos ⟨2, 2, 1, 1, 1, 1, 1, 1⟩) (fun _ _ => 1)
            (concatCols (1 * phi3HeadDim ⟨2, 2, 1, 1, 1, 1, 1, 1⟩) (fun _ _ => 1) (fun _ _ => 1))
      ∧ (0 : ℕ) < phi3QPos ⟨2, 2, 1, 1, 1, 1, 1, 1⟩
      ∧ phi3QSlice ⟨2, 2, 1, 1, 1, 1, 1, 1⟩ ⟨fun _ _ => 1, fun _ _ => 1⟩ (fun _ => 1) 0
          = linearRow 2 (fun _ _ => 1) (fun _ => 1) 0 := by
  have hW : ((fun _ _ => (1 : ℚ)) : ℕ → ℕ → ℚ)
      = concatCols (phi3QPos ⟨2, 2, 1, 1, 1, 1, 1, 1⟩) (fun _ _ => 1)
          (concatCols (1 * phi3HeadDim ⟨2, 2, 1, 1, 1, 1, 1, 1⟩) (fun _ _ => 1) (fun _ _ => 1)) := by
    funext i o
    unfold concatCols
    by_cases h1 : o < phi3QPos ⟨2, 2, 1, 1, 1, 1, 1, 1⟩ <;>
      by_cases h2 : o - phi3QPos ⟨2, 2, 1, 1, 1, 1, 1, 1⟩
          < 1 * phi3HeadDim ⟨2, 2, 1, 1, 1, 1, 1, 1⟩ <;>
      simp [h1, h2]
  exact ⟨hW, by decide,
    (fused_qkv_equals_separate_projections ⟨2, 2, 1, 1, 1, 1, 1, 1⟩
      ⟨fun _ _ => 1, fun _ _ => 1⟩ (fun _ _ => 1) (fun _ _ => 1) (fun _ _ => 1)
      hW (fun _ => 1) 0).1 (by decide)⟩

/-- C6: the fused gate-up feed-forward (width `2*intermediate_size`, gate in
the first half) is algebraically identical to the separate gate/up variant
when the fused weight concatenates the gate and up weights. -/
theorem fused_gate_up_equals_separate (e : ℚ → ℚ) (hidden inter : ℕ)
    (Wg Wu Wd : ℕ → ℕ → ℚ) (xRow : ℕ → ℚ) (o : ℕ) :
    phi3MLP e hidden inter (concatCols inter Wg Wu) Wd xRow o
      = qwen3MLP e hidden inter Wg Wu Wd xRow o := by
  unfold phi3MLP qwen3MLP linearRow
  apply Finset.sum_congr rfl
  intro i hi
  dsimp only
  have hi' := Finset.mem_range.mp hi
  have hg : ∑ j ∈ Finset.range hidden, xRow j * concatCols inter Wg Wu j i
      = ∑ j ∈ Finset.range hidden, xRow j * Wg j i := by
    apply Finset.sum_congr rfl
    intro j _
    unfold concatCols
    rw [if_pos hi']
  have hu : ∑ j ∈ Finset.range hidden, xRow j * concatCols inter Wg Wu j (inter + i)
      = ∑ j ∈ Finset.range hidden, xRow j * Wu j i := by
    apply Finset.sum_congr rfl
    intro j _
    unfold concatCols
    rw [if_neg (by omega), Nat.add_sub_cancel_left]
  rw [hg, hu]

/-- C7: with weight tying enabled the logits are the hidden states times the
transposed embedding table — identical to an untied model whose output
projection weight is that transpose; the tie flag is a construction-time
constant field of the model. -/
theorem tied_logits_equal_transposed_head (e rsqrt : ℚ → ℚ) :
    (∀ (c : Qwen3Cfg) (mw : Qwen3ModelW) (lmHead : ℕ → ℕ → ℚ)
        (cosT sinT : ℕ → ℕ → ℚ) (off L : ℕ) (ids : ℕ → ℕ)
        (mask : ℕ → ℕ → WithBot ℚ) (caches : List (Option KVEntry)),
        (qwen3CausalLM e rsqrt c ⟨mw, true, lmHead⟩ cosT sinT off L ids mask caches).1
          = (qwen3CausalLM e rsqrt c ⟨mw, false, fun d v => mw.embed v d⟩
              cosT sinT off L ids mask caches).1)
    ∧ (∀ (c : Phi3Cfg) (mw : Phi3ModelW) (lmHead : ℕ → ℕ → ℚ)
        (cosT sinT : ℕ → ℕ → ℚ) (off L : ℕ) (ids : ℕ → ℕ)
        (mask : ℕ → ℕ → WithBot ℚ) (caches : List (Option KVEntry)),
        (phi3CausalLM e rsqrt c ⟨mw, true, lmHead⟩ cosT sinT off L ids mask caches).1
          = (phi3CausalLM e rsqrt c ⟨mw, false, fun d v => mw.embed v d⟩
              cosT sinT off L ids mask caches).1) := by
  constructor
  · intro c mw lmHead cosT sinT off L ids mask caches
    rfl
  · intro c mw lmHead cosT sinT off L ids mask caches
    rfl

/-- C10: skipping the head-axis repetition when the repeat factor is `1`
(phi3 skips when `n_heads = n_kv_heads`, qwen3 when `n_repeat = 1`) produces
the same attention output as repeating unconditionally, for every input. -/
theorem repeat_guard_skip_equals_unconditional (e rsqrt : ℚ → ℚ) :
    (∀ (c : Phi3Cfg) (w : Phi3AttnW) (cosT sinT : ℕ → ℕ → ℚ) (off L : ℕ)
        (x : ℕ → ℕ → ℚ) (mask : ℕ → ℕ → WithBot ℚ) (cache : Option KVEntry),
        c.numHeads = c.numKvHeads → 0 < c.numKvHeads →
        ∀ t f : ℕ,
          phi3Attention e c w cosT sinT off L x mask cache t f
            = phi3AttentionRepeatAlways e c w cosT sinT off L x mask cache t f)
    ∧ (∀ (c : Qwen3Cfg) (w : Qwen3AttnW) (cosT sinT : ℕ → ℕ → ℚ) (off L : ℕ)
        (x : ℕ → ℕ → ℚ) (mask : ℕ → ℕ → WithBot ℚ) (cache : Option KVEntry),
        qwen3NRepeat c = 1 →
        ∀ t f : ℕ,
          qwen3Attention e rsqrt c w cosT sinT off L x mask cache t f
            = qwen3AttentionRepeatAlways e rsqrt c w cosT sinT off L x mask cache t f) := by
  constructor
  · intro c w cosT sinT off L x mask cache heq hpos t f
    have hK : phi3KRep c w cosT sinT off L x cache
        = phi3KRepAlways c w cosT sinT off L x cache := by
      unfold phi3KRep phi3KRepAlways
      rw [heq, if_neg (lt_irrefl c.numKvHeads), Nat.div_self hpos]
      funext h u d
      unfold repeatKV
      rw [Nat.div_one]
    have hV : phi3VRep c w cosT sinT off L x cache
        = phi3VRepAlways c w cosT sinT off L x cache := by
      unfold phi3VRep phi3VRepAlways
      rw [heq, if_neg (lt_irrefl c.numKvHeads), Nat.div_self hpos]
      funext h u d
      unfold repeatKV
      rw [Nat.div_one]
    unfold phi3Attention phi3AttentionRepeatAlways phi3Probs
    rw [hK, hV]
  · intro c w cosT sinT off L x mask cache hr t f
    have hK : qwen3KRep rsqrt c w cosT sinT off L x cache
        = qwen3KRepAlways rsqrt c w cosT sinT off L x cache := by
      unfold qwen3KRep qwen3KRepAlways
      rw [hr, if_neg (lt_irrefl 1)]
      funext h u d
      unfold repeatKV
      rw [Nat.div_one]
    have hV : qwen3VRep rsqrt c w cosT sinT off L x cache
        = qwen3VRepAlways rsqrt c w cosT sinT off L x cache := by
      unfold qwen3VRep qwen3VRepAlways
      rw [hr, if_neg (lt_irrefl 1)]
      funext h u d
      unfold repeatKV
      rw [Nat.div_one]
    unfold qwen3Attention qwen3AttentionRepeatAlways qwen3Probs
    rw [hK, hV]

/-- Witness for C10: one head, one kv head — the guard skips and the output
equals the unconditionally repeated variant. -/
theorem repeat_guard_skip_equals_unconditional_witness :
    ((1 : ℕ) = 1 ∧ (0 : ℕ) < 1) ∧
      phi3Attention (fun _ => 1) ⟨1, 1, 1, 1, 1, 1, 1, 1⟩ ⟨fun _ _ => 1, fun _ _ => 1⟩
          (fun _ _ => 1) (fun _ _ => 1) 0 1 (fun _ _ => 1) (fun _ _ => 0) none 0 0
        = phi3AttentionRepeatAlways (fun _ => 1) ⟨1, 1, 1, 1, 1, 1, 1, 1⟩
          ⟨fun _ _ => 1, fun _ _ => 1⟩
          (fun _ _ => 1) (fun _ _ => 1) 0 1 (fun _ _ => 1) (fun _ _ => 0) none 0 0 :=
  ⟨⟨rfl, by decide⟩,
    (repeat_guard_skip_equals_unconditional (fun _ => 1) (fun _ => 1)).1
      ⟨1, 1, 1, 1, 1, 1, 1, 1⟩ ⟨fun _ _ => 1, fun _ _ => 1⟩
      (fun _ _ => 1) (fun _ _ => 1) 0 1 (fun _ _ => 1) (fun _ _ => 0) none
      rfl (by decide) 0 0⟩

/-- C8 counterexample: with `hidden_size = 10`, `num_attention_heads = 3`
phi3 construction succeeds and silently floors `head_dim` to `3` (covering
only 9 of 10 features); with `head_dim = 4`, `num_attention_heads = 4`,
`num_key_value_heads = 3` qwen3 construction succeeds with `n_repeat = 1`
although the head counts do not divide — no configuration error is raised. -/
theorem construction_accepts_nondivisible_heads :
    phi3InitHeadDim 10 3 = Except.ok 3 ∧ ¬(3 * 3 = 10)
      ∧ qwen3InitNRepeat 4 4 3 = Except.ok 1 ∧ ¬(3 * 1 = 4) :=
  ⟨rfl, by decide, rfl, by decide⟩

/-- C8 (amended): construction performs no divisibility or zero-head
validation; it can only fail through Python arithmetic errors, none of them a
descriptive configuration error.  A zero divisor raises `ZeroDivisionError`
(phi3 line 10 for zero heads, qwen3 line 12 for zero kv heads); a `head_dim`
of zero — phi3 floors it to zero whenever the heads outnumber `hidden_size`,
qwen3 takes it from the config — raises `ZeroDivisionError` at the `** -0.5`
of line 11.  Every other configuration succeeds, the derived `head_dim` (phi3)
and `n_repeat` (qwen3) being floor divisions that silently truncate exactly
when the counts do not divide. -/
theorem construction_floor_division (hiddenSize headDim numHeads numKvHeads : ℕ) :
    (numHeads ≠ 0 → hiddenSize / numHeads ≠ 0 →
      phi3InitHeadDim hiddenSize numHeads = Except.ok (hiddenSize / numHeads)
        ∧ hiddenSize / numHeads * numHeads ≤ hiddenSize
        ∧ (¬ numHeads ∣ hiddenSize → hiddenSize / numHeads * numHeads < hiddenSize))
    ∧ phi3InitHeadDim hiddenSize 0
        = Except.error "ZeroDivisionError: integer division or modulo by zero"
    ∧ (numHeads ≠ 0 → hiddenSize < numHeads →
      phi3InitHeadDim hiddenSize numHeads
        = Except.error "ZeroDivisionError: 0.0 cannot be raised to a negative power")
    ∧ (headDim ≠ 0 → numKvHeads ≠ 0 →
      qwen3InitNRepeat headDim numHeads numKvHeads = Except.ok (numHeads / numKvHeads)
        ∧ numHeads / numKvHeads * numKvHeads ≤ numHeads
        ∧ (¬ numKvHeads ∣ numHeads → numHeads / numKvHeads * numKvHeads < numHeads))
    ∧ qwen3InitNRepeat 0 numHeads numKvHeads
        = Except.error "ZeroDivisionError: 0.0 cannot be raised to a negative power"
    ∧ (headDim ≠ 0 → qwen3InitNRepeat headDim numHeads 0
        = Except.error "ZeroDivisionError: integer division or modulo by zero") := by
  refine ⟨fun h h0 => ⟨?_, Nat.div_mul_le_self _ _, fun hd => ?_⟩, rfl, fun h hlt => ?_,
    fun hh h => ⟨?_, Nat.div_mul_le_self _ _, fun hd => ?_⟩, rfl, fun hh => ?_⟩
  · simp [phi3InitHeadDim, h, h0]
  · refine lt_of_le_of_ne (Nat.div_mul_le_self _ _) (fun heq => hd ?_)
    have heq' : numHeads * (hiddenSize / numHeads) = hiddenSize := by
      rw [Nat.mul_comm]
      exact heq
    exact ⟨hiddenSize / numHeads, heq'.symm⟩
  · have h0 : hiddenSize / numHeads = 0 := Nat.div_eq_of_lt hlt
    simp [phi3InitHeadDim, h, h0]
  · simp [qwen3InitNRepeat, hh, h]
  · refine lt_of_le_of_ne (Nat.div_mul_le_self _ _) (fun heq => hd ?_)
    have heq' : numKvHeads * (numHeads / numKvHeads) = numHeads := by
      rw [Nat.mul_comm]
      exact heq
    exact ⟨numHeads / numKvHeads, heq'.symm⟩
  · simp [qwen3InitNRepeat, hh]

/-- Witness for the amended C8 at `hidden_size = 10`, `num_heads = 3`. -/
theorem construction_floor_division_witness :
    ((3 : ℕ) ≠ 0 ∧ (10 : ℕ) / 3 ≠ 0)
      ∧ phi3InitHeadDim 10 3 = Except.ok (10 / 3) :=
  ⟨⟨by decide, by decide⟩,
    ((construction_floor_division 10 1 3 1).1 (by decide) (by decide)).1⟩

/-- C9 counterexample: a two-layer qwen3 model called with a one-entry cache
list is not rejected up front — layer 0 runs and appends to its cache entry
(its length grows from 0 to 1) before layer 1's out-of-range index raises
`IndexError`. -/
theorem cache_mutated_before_index_error :
    (qwen3Model (fun _ => 1) (fun _ => 1) qwen3CfgOne
        ⟨[qwen3BlockWOne, qwen3BlockWOne], fun _ _ => 1, fun _ => 1⟩
        (fun _ _ => 1) (fun _ _ => 1) 0 1 (fun _ => 0) (fun _ _ => 0)
        [some KVEntry.empty]).1 = Except.error "IndexError: list index out of range"
      ∧ ((qwen3Model (fun _ => 1) (fun _ => 1) qwen3CfgOne
          ⟨[qwen3BlockWOne, qwen3BlockWOne], fun _ _ => 1, fun _ => 1⟩
          (fun _ _ => 1) (fun _ _ => 1) 0 1 (fun _ => 0) (fun _ _ => 0)
          [some KVEntry.empty]).2.map (Option.map KVEntry.len)) = [some 1]
      ∧ KVEntry.empty.len = 0 :=
  ⟨rfl, rfl, rfl⟩

/-- C9 (amended): no call-time input validation exists.  A cache list shorter
than the layer list makes the forward call fail with `IndexError` only upon
reaching the first uncovered layer, by which time every earlier layer has
already appended the new span to its cache entry (the first entry's length has
grown by `L`); out-of-range token ids are never rejected — the embedding
lookup clamps them to the last vocabulary row, producing numeric output. -/
theorem call_time_validation_absent (e rsqrt : ℚ → ℚ) (cosT sinT : ℕ → ℕ → ℚ)
    (off L : ℕ) (mask : ℕ → ℕ → WithBot ℚ) :
    (∀ (c : Qwen3Cfg) (bs : List Qwen3BlockW) (x : ℕ → ℕ → ℚ)
        (cs : List (Option KVEntry)), cs.length < bs.length →
        (qwen3RunLayers e rsqrt c cosT sinT off L mask bs x cs).1
            = Except.error "IndexError: list index out of range"
          ∧ ∀ (b : Qwen3BlockW) (bs' : List Qwen3BlockW) (cc : KVEntry)
              (cs' : List (Option KVEntry)), bs = b :: bs' → cs = some cc :: cs' →
              ((qwen3RunLayers e rsqrt c cosT sinT off L mask bs x cs).2.head?.map
                (Option.map KVEntry.len)) = some (some (cc.len + L)))
    ∧ (∀ (c : Phi3Cfg) (bs : List Phi3BlockW) (x : ℕ → ℕ → ℚ)
        (cs : List (Option KVEntry)), cs.length < bs.length →
        (phi3RunLayers e rsqrt c cosT sinT off L mask bs x cs).1
            = Except.error "IndexError: list index out of range"
          ∧ ∀ (b : Phi3BlockW) (bs' : List Phi3BlockW) (cc : KVEntry)
              (cs' : List (Option KVEntry)), bs = b :: bs' → cs = some cc :: cs' →
              ((phi3RunLayers e rsqrt c cosT sinT off L mask bs x cs).2.head?.map
                (Option.map KVEntry.len)) = some (some (cc.len + L)))
    ∧ (∀ (vocab : ℕ) (emb : ℕ → ℕ → ℚ) (id : ℕ), vocab ≤ id →
        embedLookup vocab emb id = emb (vocab - 1)) := by
  refine ⟨?_, ?_, ?_⟩
  · intro c bs
    induction bs with
    | nil =>
      intro x cs h
      exact absurd h (Nat.not_lt_zero _)
    | cons b bs ih =>
      intro x cs hlen
      cases cs with
      | nil =>
        refine ⟨rfl, ?_⟩
        intro b1 bs1 cc cs' _ hcs
        exact absurd hcs (by simp)
      | cons cc0 cs0 =>
        have hlen' : cs0.length < bs.length := by simpa using hlen
        constructor
        · simp only [qwen3RunLayers]
          exact (ih _ cs0 hlen').1
        · intro b1 bs1 cc cs' _ hcs
          injection hcs with h1 h2
          subst h1
          simp [qwen3RunLayers, qwen3BlockCacheAfter, qwen3CacheAfter, KVEntry.update]
  · intro c bs
    induction bs with
    | nil =>
      intro x cs h
      exact absurd h (Nat.not_lt_zero _)
    | cons b bs ih =>
      intro x cs hlen
      cases cs with
      | nil =>
        refine ⟨rfl, ?_⟩
        intro b1 bs1 cc cs' _ hcs
        exact absurd hcs (by simp)
      | cons cc0 cs0 =>
        have hlen' : cs0.length < bs.length := by simpa using hlen
        constructor
        · simp only [phi3RunLayers]
          exact (ih _ cs0 hlen').1
        · intro b1 bs1 cc cs' _ hcs
          injection hcs with h1 h2
          subst h1
          simp [phi3RunLayers, phi3BlockCacheAfter, phi3CacheAfter, KVEntry.update]
  · intro vocab emb id hle
    unfold embedLookup
    rw [min_eq_right (by omega)]

/-- Witness for the amended C9: two layers, one cache entry. -/
theorem call_time_validation_absent_witness :
    ([some KVEntry.empty] : List (Option KVEntry)).length
        < ([qwen3BlockWOne, qwen3BlockWOne] : List Qwen3BlockW).length
      ∧ (qwen3RunLayers (fun _ => 1) (fun _ => 1) qwen3CfgOne (fun _ _ => 1)
          (fun _ _ => 1) 0 1 (fun _ _ => 0) [qwen3BlockWOne, qwen3BlockWOne]
          (fun _ _ => 1) [some KVEntry.empty]).1
        = Except.error "IndexError: list index out of range" :=
  ⟨by decide,
    ((call_time_validation_absent (fun _ => 1) (fun _ => 1) (fun _ _ => 1)
      (fun _ _ => 1) 0 1 (fun _ _ => 0)).1 qwen3CfgOne
      [qwen3BlockWOne, qwen3BlockWOne] (fun _ _ => 1) [some KVEntry.empty]
      (by decide)).1⟩
